import Mathlib

/-!
Lesson session and session tracking of the learning web application.

A shallow embedding of the lesson-taking part of `public/js/app.js`
(`AppManager`): the session fields `currentLesson`, `currentQuestionIndex`
and `userAnswers`, the part of the page the methods read and write, and the
messages and requests they emit; and of the session tracking of
`public/js/learning.js` (`LearningManager`), its analytics and
recommendation, and the insights of `public/js/leaderboard.js`, each described
where its definitions start.

Modelling conventions.

* A JavaScript array with holes is a `List (Option α)`: `none` is a hole,
  the list length is the array's `length`.
* A `fetch` is recorded in `App.requests`; what the server answers is an
  argument of the method (`FetchResult`), so each `async` method is one
  transition that starts when the request is issued and ends when the
  response has been handled.
* A method returns the new state together with an `Outcome`: `returned` for
  a normal return (a resolved promise), `threw` for an uncaught exception
  (a rejected promise).
* The elements the methods look up by id are taken to exist in the static
  page; the only elements carrying `data-answer` or the class `option-btn`
  are the option buttons rendered by `showQuestion`.
-/

namespace LearningWorld

/-- One question of a lesson, as the client receives it. -/
structure Question where
  question : String
  options : List String
deriving DecidableEq, Repr

/-- A lesson as returned by `/api/learning/lesson/:id`. -/
structure Lesson where
  _id : String
  title : String
  description : String
  coinsReward : Nat
  estimatedTime : Nat
  questions : List Question
deriving DecidableEq, Repr

/-- The per-world levels of a user. -/
structure Levels where
  science : Nat
  math : Nat
  history : Nat
  lifeSkills : Nat
deriving DecidableEq, Repr

/-- The fields of `authManager.currentUser` written by the lesson flow. -/
structure User where
  coins : Nat
  totalScore : Nat
  level : Levels
deriving DecidableEq, Repr

/-- One graded question in the server's answer to a submission. -/
structure QuestionResult where
  question : String
  isCorrect : Bool
  userAnswer : Nat
  correctAnswer : Nat
  explanation : String
deriving DecidableEq, Repr

/-- The server's answer to a submission. -/
structure LessonResults where
  score : Nat
  coinsEarned : Nat
  newCoins : Nat
  totalScore : Nat
  levelUp : Bool
  newLevel : Levels
  results : List QuestionResult
deriving DecidableEq, Repr

/-- What a `fetch` followed by `response.json()` can give: an exception, a
response whose `ok` is false, or a response with a payload. -/
inductive FetchResult (α : Type) where
  | failed : FetchResult α
  | notOk : FetchResult α
  | ok (data : α) : FetchResult α
deriving DecidableEq, Repr

/-- A call of `authManager.showMessage(message, type)`. -/
structure Message where
  text : String
  type : String
deriving DecidableEq, Repr

/-- A call of `fetch`: the URL, whether the method is POST, and the answers
sent in the body (a hole is serialised as `null`). -/
structure Request where
  url : String
  post : Bool
  answers : Option (List (Option Nat))
deriving DecidableEq, Repr

/-- The content of the element `quiz-container`. -/
inductive QuizView where
  | initial : QuizView
  | questionCard (question : Question) (selected : Option Nat) : QuizView
  | resultsCard (results : LessonResults) : QuizView
deriving DecidableEq, Repr

/-- The part of the page the lesson flow reads and writes. -/
structure Dom where
  activePage : Option String
  lessonTitle : String
  lessonInfo : Option (String × Nat × Nat × Nat)
  progressText : String
  quiz : QuizView
  nextBtnVisible : Bool
  submitBtnVisible : Bool
  optionListeners : Nat
  continueButtons : Nat
deriving DecidableEq, Repr

/-- The state of the page: the fields of `appManager`, the current user of
`authManager`, the page elements, and the log of messages and requests. -/
structure App where
  currentWorld : Option String
  currentLesson : Option Lesson
  currentQuestionIndex : Nat
  userAnswers : List (Option Nat)
  currentUser : Option User
  dom : Dom
  messages : List Message
  requests : List Request
deriving DecidableEq, Repr

/-- How a method call ends. -/
inductive Outcome where
  | returned : Outcome
  | threw : Outcome
deriving DecidableEq, Repr

/-- The assignment `arr[i] = v` on a JavaScript array: an index inside the
array is overwritten, an index at or past the end extends the array, leaving
holes in between. -/
def arrayAssign {α : Type} (arr : List (Option α)) (i : Nat) (v : α) : List (Option α) :=
  if i < arr.length then arr.set i (some v)
  else arr ++ List.replicate (i - arr.length) none ++ [some v]

/-- The read `arr[i]` on a JavaScript array: `none` stands for `undefined`,
which is what a hole and an index past the end both give. -/
def arrayRead {α : Type} (arr : List (Option α)) (i : Nat) : Option α :=
  (arr[i]?).join

/-- The method `authManager.showMessage(message, type)`. -/
def showMessage (message type : String) (s : App) : App :=
  { s with messages := s.messages ++ [⟨message, type⟩] }

/-- The method `authManager.hideAllPages()`. -/
def hideAllPages (s : App) : App :=
  { s with dom := { s.dom with activePage := none } }

/-- The text `Question i+1 of n` of the progress element. -/
def progressLabel (questionIndex total : Nat) : String :=
  "Question " ++ toString (questionIndex + 1) ++ " of " ++ toString total

/-- The method `showQuestion(questionIndex)`: the progress text is written
first; rendering the card reads `question.question`, which throws when the
index names no question. -/
def showQuestion (questionIndex : Nat) (s : App) : App × Outcome :=
  match s.currentLesson with
  | none => (s, .threw)
  | some lesson =>
    let s1 : App := { s with dom := { s.dom with
      progressText := progressLabel questionIndex lesson.questions.length } }
    match lesson.questions[questionIndex]? with
    | none => (s1, .threw)
    | some question =>
      ({ s1 with dom := { s1.dom with
          quiz := .questionCard question none
          optionListeners := s1.dom.optionListeners + 1
          nextBtnVisible := false
          submitBtnVisible := false } }, .returned)

/-- The method `showLessonPage()`. -/
def showLessonPage (s : App) : App × Outcome :=
  let s1 := hideAllPages s
  let s2 : App := { s1 with dom := { s1.dom with activePage := some "lesson-page" } }
  match s2.currentLesson with
  | none => (s2, .threw)
  | some lesson =>
    showQuestion 0 { s2 with dom := { s2.dom with
      lessonTitle := lesson.title
      lessonInfo := some (lesson.description, lesson.coinsReward, lesson.estimatedTime,
        lesson.questions.length) } }

/-- The request issued by `startLesson(lessonId)`. -/
def lessonRequest (lessonId : String) : Request :=
  ⟨"/api/learning/lesson/" ++ lessonId, false, none⟩

/-- The method `startLesson(lessonId)`, with the server's answer as an
argument. Everything runs inside `try`, so an exception of `showLessonPage`
ends in the `catch` branch. -/
def startLesson (lessonId : String) (response : FetchResult Lesson) (s : App) : App × Outcome :=
  let s1 : App := { s with requests := s.requests ++ [lessonRequest lessonId] }
  match response with
  | .failed => (showMessage "Network error loading lesson" "error" s1, .returned)
  | .notOk => (showMessage "Failed to load lesson" "error" s1, .returned)
  | .ok lesson =>
    let s2 : App := { s1 with
      currentLesson := some lesson
      currentQuestionIndex := 0
      userAnswers := [] }
    match showLessonPage s2 with
    | (s3, .returned) => (s3, .returned)
    | (s3, .threw) => (showMessage "Network error loading lesson" "error" s3, .returned)

/-- The state after `document.querySelectorAll('.option-btn')` has lost the
class `selected` on every button. -/
def clearSelection (s : App) : App :=
  match s.dom.quiz with
  | .questionCard question _ => { s with dom := { s.dom with quiz := .questionCard question none } }
  | _ => s

/-- The number of option buttons in the page, which carry `data-answer`
`0`, `1`, ... in order. -/
def optionButtons (s : App) : Nat :=
  match s.dom.quiz with
  | .questionCard question _ => question.options.length
  | _ => 0

/-- The state after the button with `data-answer = answerIndex` got the class
`selected`. -/
def markSelected (answerIndex : Nat) (s : App) : App :=
  match s.dom.quiz with
  | .questionCard question _ =>
    { s with dom := { s.dom with quiz := .questionCard question (some answerIndex) } }
  | _ => s

/-- The method `selectAnswer(answerIndex)`. Looking up the clicked button
throws when no button carries that index; the answer is stored before the
lesson is read. -/
def selectAnswer (answerIndex : Nat) (s : App) : App × Outcome :=
  let s1 := clearSelection s
  if answerIndex < optionButtons s1 then
    let s2 := markSelected answerIndex s1
    let s3 : App := { s2 with
      userAnswers := arrayAssign s2.userAnswers s2.currentQuestionIndex answerIndex }
    match s3.currentLesson with
    | none => (s3, .threw)
    | some lesson =>
      if (s3.currentQuestionIndex : Int) < (lesson.questions.length : Int) - 1 then
        ({ s3 with dom := { s3.dom with nextBtnVisible := true } }, .returned)
      else
        ({ s3 with dom := { s3.dom with submitBtnVisible := true } }, .returned)
  else (s1, .threw)

/-- The method `nextQuestion()`. -/
def nextQuestion (s : App) : App × Outcome :=
  match s.currentLesson with
  | none => (s, .threw)
  | some lesson =>
    if (s.currentQuestionIndex : Int) < (lesson.questions.length : Int) - 1 then
      let s1 : App := { s with currentQuestionIndex := s.currentQuestionIndex + 1 }
      showQuestion s1.currentQuestionIndex s1
    else (s, .returned)

/-- The method `authManager.updateUserInfo()`: it only writes text of the
header and the profile page, which the lesson flow never reads. -/
def updateUserInfo (s : App) : App := s

/-- The method `showLessonResults(results)`. Writing `currentUser.coins`
throws when nobody is logged in, after the results card was rendered. -/
def showLessonResults (results : LessonResults) (s : App) : App × Outcome :=
  let s1 : App := { s with dom := { s.dom with quiz := .resultsCard results } }
  match s1.currentUser with
  | none => (s1, .threw)
  | some user =>
    let user1 : User := { user with coins := results.newCoins, totalScore := results.totalScore }
    let user2 : User := if results.levelUp then { user1 with level := results.newLevel } else user1
    let s2 := updateUserInfo { s1 with currentUser := some user2 }
    let s3 : App := { s2 with dom := { s2.dom with
      nextBtnVisible := false
      submitBtnVisible := false
      continueButtons := s2.dom.continueButtons + 1 } }
    (showMessage "Lesson completed successfully!" "success" s3, .returned)

/-- The request issued by `submitLesson()`. -/
def submitRequest (lesson : Lesson) (answers : List (Option Nat)) : Request :=
  ⟨"/api/learning/lesson/" ++ lesson._id ++ "/submit", true, some answers⟩

/-- The method `submitLesson()`, with the server's answer as an argument.
The length comparison stands before the `try`. -/
def submitLesson (response : FetchResult LessonResults) (s : App) : App × Outcome :=
  match s.currentLesson with
  | none => (s, .threw)
  | some lesson =>
    if s.userAnswers.length ≠ lesson.questions.length then
      (showMessage "Please answer all questions" "error" s, .returned)
    else
      let s1 : App := { s with requests := s.requests ++ [submitRequest lesson s.userAnswers] }
      match response with
      | .failed => (showMessage "Network error submitting lesson" "error" s1, .returned)
      | .notOk => (showMessage "Failed to submit lesson" "error" s1, .returned)
      | .ok data =>
        match showLessonResults data s1 with
        | (s2, .returned) => (s2, .returned)
        | (s2, .threw) => (showMessage "Network error submitting lesson" "error" s2, .returned)

/-- A call of one of the three session methods. -/
inductive Call where
  | selectAnswer (answerIndex : Nat) : Call
  | nextQuestion : Call
  | submitLesson (response : FetchResult LessonResults) : Call
deriving DecidableEq, Repr

/-- The state after one call; an exception leaves the state it was thrown
in. -/
def step (s : App) : Call → App
  | .selectAnswer answerIndex => (selectAnswer answerIndex s).1
  | .nextQuestion => (nextQuestion s).1
  | .submitLesson response => (submitLesson response s).1

/-- The state after a sequence of calls. -/
def run (s : App) (calls : List Call) : App :=
  calls.foldl step s

/-- The sequence respects the page's gate on the next button: every
`nextQuestion` happens while that button is displayed, which
`showQuestion` ends and `selectAnswer` starts. -/
def gated : App → List Call → Bool
  | _, [] => true
  | s, .nextQuestion :: calls => s.dom.nextBtnVisible && gated (step s .nextQuestion) calls
  | s, call :: calls => gated (step s call) calls

/-- Question `i` has a recorded answer. -/
def answered (s : App) (i : Nat) : Bool :=
  (arrayRead s.userAnswers i).isSome

/-- The constructor of `AppManager` on a page whose quiz container is still
the static markup. -/
def initialApp : App :=
  { currentWorld := none
    currentLesson := none
    currentQuestionIndex := 0
    userAnswers := []
    currentUser := none
    dom :=
      { activePage := none
        lessonTitle := ""
        lessonInfo := none
        progressText := ""
        quiz := .initial
        nextBtnVisible := false
        submitBtnVisible := false
        optionListeners := 0
        continueButtons := 0 }
    messages := []
    requests := [] }

/-- A question with three options. -/
def sampleQuestion (text : String) : Question :=
  ⟨text, ["a", "b", "c"]⟩

/-- A lesson with three questions. -/
def sampleLesson : Lesson :=
  { _id := "L1", title := "Plants", description := "About plants", coinsReward := 10,
    estimatedTime := 5,
    questions := [sampleQuestion "q1", sampleQuestion "q2", sampleQuestion "q3"] }

/-- A lesson without questions. -/
def emptyLesson : Lesson :=
  { sampleLesson with _id := "L0", questions := [] }

/-- The session of `sampleLesson` right after `startLesson`. -/
def sampleStart : App :=
  (startLesson "L1" (.ok sampleLesson) initialApp).1

/-- The session of `sampleLesson` standing on its last question, the first two
answered. -/
def sampleAtLast : App :=
  run sampleStart [.selectAnswer 1, .nextQuestion, .selectAnswer 0, .nextQuestion]

/-- The session of `sampleLesson` after skipping two questions unanswered
and answering the third. -/
def sampleSkippedTwo : App :=
  run sampleStart [.nextQuestion, .nextQuestion, .selectAnswer 1]

/-- The session of `sampleLesson` after skipping the first question unanswered
and answering the other two. -/
def sampleSkippedFirst : App :=
  run sampleStart [.nextQuestion, .selectAnswer 0, .nextQuestion, .selectAnswer 2]

/-- Answering every question in order: `selectAnswer` on each question,
`nextQuestion` between two questions. -/
def answerInOrder : List Nat → List Call
  | [] => []
  | [choice] => [.selectAnswer choice]
  | choice :: choices => .selectAnswer choice :: .nextQuestion :: answerInOrder choices

/-- The session of `sampleLesson` with every question answered in order, the
submit button on display. -/
def sampleAnswered : App :=
  run sampleStart (answerInOrder [1, 0, 2])

/-- The state is a session of `lesson`: it is reached from a successful
`startLesson` by calls of the three session methods. -/
def Session (lesson : Lesson) (s : App) : Prop :=
  ∃ (s0 : App) (lessonId : String) (calls : List Call),
    s = run (startLesson lessonId (.ok lesson) s0).1 calls

/-- The state is a session of `lesson` reached the way the page lets the user
reach it: `nextQuestion` is only called while the next button is displayed. -/
def GatedSession (lesson : Lesson) (s : App) : Prop :=
  ∃ (s0 : App) (lessonId : String) (calls : List Call),
    gated (startLesson lessonId (.ok lesson) s0).1 calls = true ∧
    s = run (startLesson lessonId (.ok lesson) s0).1 calls

/-- What every state of a session of `lesson` satisfies, whatever is called:
the lesson stays, the index names a question, the answer array is no longer
than the question list. -/
def SessionInv (lesson : Lesson) (s : App) : Prop :=
  s.currentLesson = some lesson ∧
  s.currentQuestionIndex < lesson.questions.length ∧
  s.userAnswers.length ≤ lesson.questions.length

/-- What every state of a session satisfies when `nextQuestion` is only
called with the next button displayed: moreover the answer array has no hole
and reaches up to the current question or the one before, the former whenever
the next button is displayed. -/
def GatedInv (lesson : Lesson) (s : App) : Prop :=
  s.currentLesson = some lesson ∧
  s.currentQuestionIndex < lesson.questions.length ∧
  (∀ x ∈ s.userAnswers, x.isSome = true) ∧
  s.currentQuestionIndex ≤ s.userAnswers.length ∧
  s.userAnswers.length ≤ s.currentQuestionIndex + 1 ∧
  (s.dom.nextBtnVisible = true → s.userAnswers.length = s.currentQuestionIndex + 1)

/-! ## Session tracking of `public/js/learning.js` (`LearningManager`)

Times are JavaScript timestamps: integer milliseconds since the epoch, which
is what a `Date` holds and what its ISO string in `localStorage` gives back.
The reading of the clock, `new Date()`, is an argument of each method. The
time zone of the browser is an argument too (`Zone`). The two keys of
`localStorage` hold typed values instead of their JSON text; a key that was
never set is `none`. -/

/-- The lesson held by `learningManager.currentLesson`; session tracking reads
only its `world`, which may be absent. -/
structure TrackedLesson where
  world : Option String
deriving DecidableEq, Repr

/-- The value under the key `currentSession`. A `world` that is `undefined`
is dropped by `JSON.stringify`, hence absent. -/
structure CurrentSession where
  lessonId : String
  startTime : Int
  world : Option String
deriving DecidableEq, Repr

/-- One element of the array under the key `learningSessions`.
`storeSessionData` accepts any session object, so the two fields written by
`endLearningSession` may be absent. -/
structure SessionRecord where
  lessonId : String
  startTime : Int
  world : Option String
  endTime : Option Int
  duration : Option Int
deriving DecidableEq, Repr

/-- The two keys of `localStorage` used by session tracking. -/
structure Storage where
  currentSession : Option CurrentSession
  learningSessions : Option (List SessionRecord)
deriving DecidableEq, Repr

/-- The state session tracking works on: the manager's current lesson and
the browser's storage. -/
structure Learning where
  currentLesson : Option TrackedLesson
  storage : Storage
deriving DecidableEq, Repr

/-- The expression `JSON.parse(localStorage.getItem('learningSessions') || '[]')`. -/
def storedSessions (m : Learning) : List SessionRecord :=
  m.storage.learningSessions.getD []

/-- The method `startLearningSession(lessonId)`. -/
def startLearningSession (lessonId : String) (now : Int) (m : Learning) : Learning :=
  { m with storage := { m.storage with
      currentSession := some ⟨lessonId, now, m.currentLesson.bind (fun lesson => lesson.world)⟩ } }

/-- The method `getLessonContent(lessonId)`, with the server's answer as an
argument: of the state tracked here it writes `currentLesson`, on an OK
response only. -/
def getLessonContent (response : FetchResult TrackedLesson) (m : Learning) : Learning :=
  match response with
  | .ok lesson => { m with currentLesson := some lesson }
  | _ => m

/-- The method `storeSessionData(session)`. -/
def storeSessionData (session : SessionRecord) (m : Learning) : Learning :=
  { m with storage := { m.storage with
      learningSessions := some (storedSessions m ++ [session]) } }

/-- The record `endLearningSession` builds from the current session. -/
def finishedSession (session : CurrentSession) (now : Int) : SessionRecord :=
  { lessonId := session.lessonId
    startTime := session.startTime
    world := session.world
    endTime := some now
    duration := some (now - session.startTime) }

/-- The method `endLearningSession()`. -/
def endLearningSession (now : Int) (m : Learning) : Learning :=
  match m.storage.currentSession with
  | none => m
  | some session =>
    let m1 := storeSessionData (finishedSession session now) m
    { m1 with storage := { m1.storage with currentSession := none } }

/-- Milliseconds in a day. -/
def msPerDay : Int := 86400000

/-- The time zone of the browser, which the repository does not contain: the
offset of local time from UTC at an instant, and the instant a local time
value stands for. The latter is the conversion a `Date` applies when its local
fields are set: a local time that occurs twice stands for the earlier instant,
a local time skipped by a clock change is read with the offset in force before
the change. -/
structure Zone where
  offsetAt : Int → Int
  toUtc : Int → Int

/-- The local time value of an instant, from which `getDate`, `getHours` and
the like read their fields. -/
def localTime (z : Zone) (t : Int) : Int :=
  t + z.offsetAt t

/-- The local calendar day of an instant, as a day number. -/
def localDay (z : Zone) (t : Int) : Int :=
  localTime z t / msPerDay

/-- The timestamp after `setHours(0, 0, 0, 0)`: the local fields keep their
day and get the time of day zero, and the result is converted back. -/
def localMidnight (z : Zone) (t : Int) : Int :=
  z.toUtc (localDay z t * msPerDay)

/-- The timestamp after `setDate(getDate() - 1)`: the local fields move one
day back and keep their time of day, and the result is converted back. -/
def previousDate (z : Zone) (t : Int) : Int :=
  z.toUtc (localTime z t - msPerDay)

/-- A zone with the same offset at all times. -/
def fixedZone (offset : Int) : Zone :=
  { offsetAt := fun _ => offset
    toUtc := fun l => l - offset }

/-- A zone whose offset changes once, at the instant `change`, from `before`
to `after`. When the clock jumps forward the local times between
`change + before` and `change + after` are skipped, when it falls back the
local times between `change + after` and `change + before` occur twice. -/
def oneChangeZone (change before after : Int) : Zone :=
  { offsetAt := fun t => if t < change then before else after
    toUtc := fun l => if l < change + max before after then l - before else l - after }

/-- The zone Africa/Cairo around 26 April 2024, when the clock jumped from
00:00 to 01:00 and the offset from two to three hours. -/
def cairo : Zone :=
  oneChangeZone 1714082400000 7200000 10800000

/-- The zone America/New_York around 10 March 2024, when the clock jumped from
02:00 to 03:00 and the offset from minus five to minus four hours. -/
def newYork : Zone :=
  oneChangeZone 1710054000000 (-18000000) (-14400000)

/-- The instant of local midnight of every day lies on that day. This holds
of a fixed offset and of a zone whose clock changes by less than a day, also
when the change skips a midnight. -/
def KeepsMidnight (z : Zone) : Prop :=
  ∀ day : Int, localDay z (z.toUtc (day * msPerDay)) = day

/-- Zeroing the time of day does not leave the calendar day: the date after
`setHours(0, 0, 0, 0)` lies on the local day of the date before. -/
def KeepsDay (z : Zone) : Prop :=
  ∀ t : Int, localDay z (localMidnight z t) = localDay z t

/-- The local time 00:00 of the day occurs: no clock change skipped it. -/
def MidnightExists (z : Zone) (day : Int) : Prop :=
  localTime z (z.toUtc (day * msPerDay)) = day * msPerDay

/-- The filter of `calculateLearningStreak`: the sessions whose start, with
the time of day zeroed, is `currentDate`. -/
def sessionsOn (z : Zone) (sessions : List SessionRecord) (currentDate : Int) :
    List SessionRecord :=
  sessions.filter (fun session => localMidnight z session.startTime == currentDate)

/-- The loop `for (let i = 1; i < 30; i++)` of `calculateLearningStreak`,
with the number of iterations left as first argument. -/
def streakLoop (z : Zone) (sessions : List SessionRecord) : Nat → Int → Nat → Nat
  | 0, _, streak => streak
  | left + 1, currentDate, streak =>
    if (sessionsOn z sessions currentDate).length > 0 then
      streakLoop z sessions left (previousDate z currentDate) (streak + 1)
    else streak

/-- The value `calculateLearningStreak()` returns. The sort works on the
parsed copy of the stored array. -/
def calculateLearningStreak (z : Zone) (now : Int) (m : Learning) : Nat :=
  let sessions := storedSessions m
  if sessions.length = 0 then 0
  else
    let sorted := sessions.insertionSort (fun a b => a.startTime ≤ b.startTime)
    let currentDate := localMidnight z now
    if (sessionsOn z sorted currentDate).length > 0 then
      streakLoop z sorted 29 (previousDate z currentDate) 1
    else 0

/-- The value of one world in `worldBreakdown`. -/
structure WorldStats where
  count : Nat
  time : Int
deriving DecidableEq, Repr

/-- The object returned by `getLearningAnalytics()`; an object with string
keys is the list of its own entries in insertion order. -/
structure Analytics where
  totalSessions : Nat
  totalTime : Int
  averageSessionTime : Rat
  worldBreakdown : List (String × WorldStats)
  dailyProgress : List (String × Nat)
deriving DecidableEq, Repr

/-- The expression `session.duration || 0`. -/
def durationOrZero (session : SessionRecord) : Int :=
  session.duration.getD 0

/-- The property key a `world` turns into: `undefined` becomes the string
`undefined`. -/
def worldKey (world : Option String) : String :=
  world.getD "undefined"

/-- The names `{}` inherits from `Object.prototype`. Read on an empty object
they give a truthy value, so the entry is not created and the two updates land
on the inherited value. -/
def inheritedKeys : List String :=
  ["constructor", "__defineGetter__", "__defineSetter__", "hasOwnProperty",
   "__lookupGetter__", "__lookupSetter__", "isPrototypeOf", "propertyIsEnumerable",
   "toString", "valueOf", "__proto__", "toLocaleString"]

/-- The two updates `count++` and `time += d` on the entry of `key`, created
with zeros when absent. -/
def bumpEntry (key : String) (d : Int) : List (String × WorldStats) → List (String × WorldStats)
  | [] => [(key, ⟨1, d⟩)]
  | (k, stats) :: rest =>
    if k = key then (k, ⟨stats.count + 1, stats.time + d⟩) :: rest
    else (k, stats) :: bumpEntry key d rest

/-- The body of the `forEach` of `getLearningAnalytics`. -/
def addToBreakdown (breakdown : List (String × WorldStats)) (session : SessionRecord) :
    List (String × WorldStats) :=
  if worldKey session.world ∈ inheritedKeys then breakdown
  else bumpEntry (worldKey session.world) (durationOrZero session) breakdown

/-- The method `getLearningAnalytics()`. -/
def getLearningAnalytics (m : Learning) : Analytics :=
  let sessions := storedSessions m
  let totalTime := (sessions.map durationOrZero).sum
  if sessions.length > 0 then
    { totalSessions := sessions.length
      totalTime := totalTime
      averageSessionTime := (totalTime : Rat) / (sessions.length : Rat)
      worldBreakdown := sessions.foldl addToBreakdown []
      dailyProgress := [] }
  else
    { totalSessions := sessions.length
      totalTime := totalTime
      averageSessionTime := 0
      worldBreakdown := []
      dailyProgress := [] }

/-- The call `localStorage.getItem('learningSessions')`: the value read, and
the storage after the call. -/
def getItemSessions (storage : Storage) : Option (List SessionRecord) × Storage :=
  (storage.learningSessions, storage)

/-- The method `getLearningAnalytics()` as a transition: its one access to the
storage is the `getItem` of its first line; the value returned and the state
after. -/
def getLearningAnalyticsRun (m : Learning) : Analytics × Learning :=
  let after : Learning := { m with storage := (getItemSessions m.storage).2 }
  (getLearningAnalytics after, after)

/-- The method `calculateLearningStreak()` as a transition: its one access to
the storage is the `getItem` of its first line; the value returned and the
state after. -/
def calculateLearningStreakRun (z : Zone) (now : Int) (m : Learning) : Nat × Learning :=
  let after : Learning := { m with storage := (getItemSessions m.storage).2 }
  (calculateLearningStreak z now after, after)

/-- A call of a method of `LearningManager` that reads or writes the tracked
state, with the reading of the clock or the server's answer where the method
takes one. The remaining methods touch neither `localStorage` nor
`currentLesson`. -/
inductive LearningCall where
  | getLessonContent (response : FetchResult TrackedLesson) : LearningCall
  | startLearningSession (lessonId : String) (now : Int) : LearningCall
  | endLearningSession (now : Int) : LearningCall
  | storeSessionData (session : SessionRecord) : LearningCall
  | getLearningAnalytics : LearningCall
  | calculateLearningStreak (now : Int) : LearningCall
deriving DecidableEq, Repr

/-- The state after one call, in the time zone `z`. -/
def performCall (z : Zone) (m : Learning) : LearningCall → Learning
  | .getLessonContent response => getLessonContent response m
  | .startLearningSession lessonId now => startLearningSession lessonId now m
  | .endLearningSession now => endLearningSession now m
  | .storeSessionData session => storeSessionData session m
  | .getLearningAnalytics => (getLearningAnalyticsRun m).2
  | .calculateLearningStreak now => (calculateLearningStreakRun z now m).2

/-- The state after a sequence of calls. -/
def performCalls (z : Zone) (m : Learning) (calls : List LearningCall) : Learning :=
  calls.foldl (performCall z) m

/-- The local calendar days on which the stored sessions started, one entry
per session. -/
def sessionDays (z : Zone) (m : Learning) : List Int :=
  (storedSessions m).map (fun session => localDay z session.startTime)

/-- Some stored session started on the calendar day `daysAgo` days before the
day of `now`. -/
def hasSessionDaysAgo (z : Zone) (now : Int) (m : Learning) (daysAgo : Nat) : Prop :=
  localDay z now - daysAgo ∈ sessionDays z m

/-- A finished session of lesson `L1` that started at `startTime` and took a
minute. -/
def sampleRecord (startTime : Int) : SessionRecord :=
  ⟨"L1", startTime, some "Science", some (startTime + 60000), some 60000⟩

/-- A history with one session at each of the given start times. -/
def historyAt (startTimes : List Int) : Learning :=
  { currentLesson := none
    storage :=
      { currentSession := none
        learningSessions := some (startTimes.map sampleRecord) } }

/-- A history with one session at the time of day of `now` on each of the
given numbers of days before, counted in elapsed days. -/
def historyDaysAgo (now : Int) (daysAgo : List Nat) : Learning :=
  historyAt (daysAgo.map (fun (d : Nat) => now - (d : Int) * msPerDay))

/-- Eight in the morning, UTC, of day 20000 after the epoch. -/
def sampleNow : Int := 20000 * 86400000 + 8 * 3600000

/-- A manager holding a Science lesson, with an empty storage. -/
def sampleLearning : Learning :=
  { currentLesson := some ⟨some "Science"⟩
    storage := { currentSession := none, learningSessions := none } }

/-- A history with a session late on the day before `sampleNow` and one early
on the day of `sampleNow`, two hours apart. -/
def lateAndEarly : Learning :=
  { currentLesson := none
    storage :=
      { currentSession := none
        learningSessions := some
          [⟨"L1", sampleNow - 9 * 3600000, some "Science", none, some 60000⟩,
           ⟨"L2", sampleNow - 7 * 3600000, some "Math", none, none⟩] } }

/-- The same two days as `lateAndEarly`, with other times of day, lessons,
worlds and durations, the later day first and stored twice. -/
def sameDaysShuffled : Learning :=
  { currentLesson := some ⟨some "Math"⟩
    storage :=
      { currentSession := none
        learningSessions := some
          [⟨"L7", sampleNow, none, some (sampleNow + 5), some 5⟩,
           ⟨"L8", sampleNow - 3600000, some "History", none, none⟩,
           ⟨"L9", sampleNow - 20 * 3600000, some "Science", none, some 1000⟩] } }

/-- Noon of 28 April 2024 in Cairo. -/
def cairoNoon28 : Int := 1714294800000

/-- Sessions at nine in the morning, Cairo time, on 25, 26, 27 and 28 April
2024. -/
def cairoFourDays : Learning :=
  historyAt [1714028400000, 1714111200000, 1714197600000, 1714284000000]

/-- Noon of 10 May 2024 in Cairo. -/
def cairoNoonMay10 : Int := 1715331600000

/-- Sessions on each of the forty calendar days up to 10 May 2024 in Cairo. -/
def cairoFortyDays : Learning :=
  historyDaysAgo cairoNoonMay10 (List.range 40)

/-- Noon of 26 April 2024 in Cairo, the day whose midnight was skipped. -/
def cairoNoon26 : Int := 1714122000000

/-- A session at 23:30 on 25 April 2024 and one at 01:30 on 26 April 2024,
Cairo time, one hour of elapsed time apart. -/
def cairoLateAndEarly : Learning :=
  historyAt [1714080600000, 1714084200000]

/-- Noon of 10 March 2024 in New York, after the clock change of that day. -/
def newYorkNoon : Int := 1710086400000

/-- A single session at 23:30 on 9 March 2024, New York time. -/
def newYorkYesterday : Learning :=
  historyAt [1710045000000]

/-- Noon of 11 March 2024 in New York. -/
def newYorkNoon11 : Int := 1710172800000

/-- Sessions at nine in the morning, New York time, on 9, 10 and 11 March
2024. -/
def newYorkThreeDays : Learning :=
  historyAt [1709992800000, 1710075600000, 1710162000000]

/-! ## The review of a graded lesson (`showLessonResults`) -/

/-- One block `question-result` of the results card, with the texts the
template puts into it. -/
structure ReviewEntry where
  cssClass : String
  heading : String
  yourAnswer : String
  correctAnswer : String
  explanation : String
deriving DecidableEq, Repr

/-- The block the template of `showLessonResults` renders for the result at
position `index` of `results.results`. -/
def reviewEntry (index : Nat) (result : QuestionResult) : ReviewEntry :=
  { cssClass := if result.isCorrect then "correct" else "incorrect"
    heading := "Question " ++ toString (index + 1) ++ ": " ++ result.question
    yourAnswer := toString (result.userAnswer + 1)
    correctAnswer := toString (result.correctAnswer + 1)
    explanation := result.explanation }

/-- The blocks of `results.results.map((result, index) => ...)`. -/
def questionReview (results : LessonResults) : List ReviewEntry :=
  results.results.mapIdx reviewEntry

/-- The review blocks the quiz container shows. -/
def renderedReview : QuizView → List ReviewEntry
  | .resultsCard results => questionReview results
  | _ => []

/-! ## The recommendation of `public/js/learning.js`

An object with string keys, such as `levels`, is the list of its entries in
the order of `Object.keys`; the keys of an object are distinct. -/

/-- One element of `data.lessons`, the lessons of a world at a level. -/
structure LessonCard where
  _id : String
  title : String
  description : String
  coinsReward : Nat
  estimatedTime : Nat
  isCompleted : Bool
deriving DecidableEq, Repr

/-- The object `getNextRecommendedLesson` returns when it recommends. -/
structure Recommendation where
  lesson : LessonCard
  world : String
  reason : String
deriving DecidableEq, Repr

/-- What a run of `getNextRecommendedLesson` does and returns: the requests
issued, the messages shown, the value assigned to `this.lessons` if any, and
the returned recommendation (`none` for `null`). -/
structure RecommendationRun where
  requests : List Request
  messages : List Message
  lessons : Option (List LessonCard)
  result : Option Recommendation
deriving DecidableEq, Repr

/-- One step of the `forEach` over `Object.keys(levels)`: the pair is
`(recommendedWorld, lowestLevel)`. -/
def lowestLevelStep (acc : Option String × Nat) (entry : String × Nat) : Option String × Nat :=
  if entry.2 < acc.2 then (some entry.1, entry.2) else acc

/-- The scan for the world with the lowest level, starting from
`recommendedWorld = null` and `lowestLevel = 10`. -/
def lowestLevelScan (levels : List (String × Nat)) : Option String × Nat :=
  levels.foldl lowestLevelStep (none, 10)

/-- The value `getUserLevels()` resolves to: the levels of an OK response,
the empty object otherwise. -/
def getUserLevels (response : FetchResult (List (String × Nat))) : List (String × Nat) :=
  match response with
  | .ok levels => levels
  | _ => []

/-- The request issued by `loadLessons(world, level)`. -/
def lessonsRequest (world : String) (level : Nat) : Request :=
  ⟨"/api/learning/lessons/" ++ world ++ "/" ++ toString level, false, none⟩

/-- The method `getNextRecommendedLesson()`, with the server's answers to
`getUserLevels`, `getWorlds` and `loadLessons` as arguments. The test
`if (recommendedWorld)` fails for `null` and for the empty string. -/
def getNextRecommendedLesson (levelsResponse : FetchResult (List (String × Nat)))
    (worldsResponse : FetchResult (List String))
    (lessonsResponse : FetchResult (List LessonCard)) : RecommendationRun :=
  let levels := getUserLevels levelsResponse
  let _worlds := worldsResponse
  let first : List Request := [⟨"/api/learning/levels", false, none⟩,
    ⟨"/api/learning/worlds", false, none⟩]
  match lowestLevelScan levels with
  | (some recommendedWorld, lowestLevel) =>
    if recommendedWorld = "" then ⟨first, [], none, none⟩
    else
      let requests := first ++ [lessonsRequest recommendedWorld lowestLevel]
      match lessonsResponse with
      | .ok lessons =>
        match lessons.filter (fun lesson => !lesson.isCompleted) with
        | lesson :: _ =>
          ⟨requests, [], some lessons,
            some ⟨lesson, recommendedWorld, "Continue your " ++ recommendedWorld ++ " journey"⟩⟩
        | [] => ⟨requests, [], some lessons, none⟩
      | _ => ⟨requests, [⟨"Failed to load lessons", "error"⟩], none, none⟩
  | (none, _) => ⟨first, [], none, none⟩

/-! ## The leaderboard insights of `public/js/leaderboard.js`

JavaScript numbers are exact rationals here: the rounding error of a floating
point division is not part of the model. -/

/-- One entry of a leaderboard, with the fields the statistics read. -/
structure LeaderboardUser where
  _id : String
  totalScore : Nat
deriving DecidableEq, Repr

/-- The data stored under one tab of `leaderboardData`. -/
structure LeaderboardData where
  leaderboard : Option (List LeaderboardUser)
deriving DecidableEq, Repr

/-- The state of `leaderboardManager`; of `leaderboardData` the statistics
read only the key `global`. -/
structure LeaderboardManager where
  currentTab : String
  leaderboardGlobal : Option LeaderboardData
deriving DecidableEq, Repr

/-- The fields of `authManager.currentUser` read by `generateInsights`. -/
structure InsightUser where
  id : String
  totalScore : Nat
deriving DecidableEq, Repr

/-- The object returned by `getLeaderboardStats()`. -/
structure LeaderboardStats where
  totalUsers : Nat
  averageScore : Rat
  topScore : Nat
  worldDistribution : List (String × Nat)
deriving DecidableEq, Repr

/-- One element of the array returned by `generateInsights()`. -/
structure Insight where
  type : String
  message : String
  icon : String
deriving DecidableEq, Repr

/-- The function `Math.round`: the nearest integer, a half rounding up. -/
def mathRound (x : Rat) : Int :=
  ⌊x + 1 / 2⌋

/-- The method `getLeaderboardStats()`. -/
def getLeaderboardStats (m : LeaderboardManager) : LeaderboardStats :=
  match m.leaderboardGlobal.bind (fun data => data.leaderboard) with
  | some (first :: rest) =>
    { totalUsers := (first :: rest).length
      averageScore :=
        ((((first :: rest).map (fun user => user.totalScore)).sum : Nat) : Rat) /
          (((first :: rest).length : Nat) : Rat)
      topScore := first.totalScore
      worldDistribution := [] }
  | _ => { totalUsers := 0, averageScore := 0, topScore := 0, worldDistribution := [] }

/-- The expression `Math.round(((stats.totalUsers - rank) / stats.totalUsers) * 100)`. -/
def rankPercentile (totalUsers rank : Nat) : Int :=
  mathRound ((((totalUsers : Rat) - (rank : Rat)) / (totalUsers : Rat)) * 100)

/-- The insights pushed for a user found at 1-based `rank`. -/
def rankInsights (totalUsers rank : Nat) : List Insight :=
  [⟨"rank", "You\x27re in the top " ++ toString (rankPercentile totalUsers rank) ++
      "% of learners!", "🎯"⟩] ++
  (if rank ≤ 10 then [⟨"achievement", "Amazing! You\x27re in the top 10!", "🏆"⟩]
   else if rank ≤ 50 then [⟨"achievement", "Great job! You\x27re in the top 50!", "⭐"⟩]
   else [])

/-- The text of the number in the score insight; a division by an average of
zero gives `Infinity`. -/
def aboveAverageText (totalScore : Nat) (averageScore : Rat) : String :=
  if averageScore = 0 then "Infinity"
  else toString (mathRound ((((totalScore : Rat) - averageScore) / averageScore) * 100))

/-- The insight pushed when the user's score is above the average. -/
def scoreInsights (totalScore : Nat) (averageScore : Rat) : List Insight :=
  if (totalScore : Rat) > averageScore then
    [⟨"score", "Your score is " ++ aboveAverageText totalScore averageScore ++
      "% above average!", "📈"⟩]
  else []

/-- The method `generateInsights()`, with `authManager.currentUser` as an
argument. `findIndex` on a leaderboard that is missing gives `undefined`, on
one without the user `-1`; both are `none` here. -/
def generateInsights (m : LeaderboardManager) (currentUser : Option InsightUser) : List Insight :=
  let stats := getLeaderboardStats m
  match currentUser with
  | none => []
  | some user =>
    let userRank := (m.leaderboardGlobal.bind (fun data => data.leaderboard)).bind
      (fun users => users.findIdx? (fun entry => entry._id == user.id))
    (match userRank with
      | some index => rankInsights stats.totalUsers (index + 1)
      | none => []) ++
    scoreInsights user.totalScore stats.averageScore

/-! ## Sample data for the later sections -/

/-- The sum of the counts of the entries of a breakdown. -/
def breakdownCount (breakdown : List (String × WorldStats)) : Nat :=
  (breakdown.map (fun entry => entry.2.count)).sum

/-- The sum of the times of the entries of a breakdown. -/
def breakdownTime (breakdown : List (String × WorldStats)) : Int :=
  (breakdown.map (fun entry => entry.2.time)).sum

/-- The own entry of a breakdown under a key, `none` when there is none. -/
def breakdownEntry (breakdown : List (String × WorldStats)) (key : String) : Option WorldStats :=
  breakdown.lookup key

/-- The stored sessions whose world gives the property key `key`. -/
def sessionsOfWorld (m : Learning) (key : String) : List SessionRecord :=
  (storedSessions m).filter (fun session => worldKey session.world == key)

/-- A history with one Science session and one session of a world named
`constructor`, five and seven milliseconds long. -/
def historyWithConstructor : Learning :=
  { currentLesson := none
    storage :=
      { currentSession := none
        learningSessions := some
          [⟨"L1", 0, some "Science", some 5, some 5⟩,
           ⟨"L2", 10, some "constructor", some 17, some 7⟩] } }

/-- A history with a single session, of a world named `toString`. -/
def historyWithToString : Learning :=
  { currentLesson := none
    storage :=
      { currentSession := none
        learningSessions := some [⟨"L1", 0, some "toString", some 4, some 4⟩] } }

/-- A history over two worlds, with one record lacking its duration. -/
def historyTwoWorlds : Learning :=
  { currentLesson := none
    storage :=
      { currentSession := none
        learningSessions := some
          [⟨"L1", 0, some "Science", some 5, some 5⟩,
           ⟨"L2", 10, some "Math", none, none⟩,
           ⟨"L3", 20, some "Science", some 27, some 7⟩] } }

/-- A global leaderboard of two users. -/
def sampleLeaderboard : LeaderboardManager :=
  { currentTab := "global"
    leaderboardGlobal := some ⟨some [⟨"u1", 90⟩, ⟨"u2", 50⟩]⟩ }

/-- Three graded questions. -/
def sampleResults : LessonResults :=
  { score := 2, coinsEarned := 10, newCoins := 30, totalScore := 12, levelUp := false,
    newLevel := ⟨1, 1, 1, 1⟩,
    results := [⟨"q1", true, 1, 1, "e1"⟩, ⟨"q2", false, 0, 2, "e2"⟩, ⟨"q3", true, 2, 2, "e3"⟩] }

/-- The entry under a key after the sessions `added`, all of that key, were
counted on top of the entry `old`. -/
def extendEntry (old : Option WorldStats) (added : List SessionRecord) : Option WorldStats :=
  match added with
  | [] => old
  | _ :: _ =>
    some ⟨(old.map (fun stats => stats.count)).getD 0 + added.length,
      (old.map (fun stats => stats.time)).getD 0 + (added.map durationOrZero).sum⟩

/-! ## Array assignment -/

theorem length_arrayAssign {α : Type} (arr : List (Option α)) (i : Nat) (v : α) :
    (arrayAssign arr i v).length = max arr.length (i + 1) := by
  unfold arrayAssign
  split
  · simp; omega
  · simp; omega

theorem arrayRead_arrayAssign_self {α : Type} (arr : List (Option α)) (i : Nat) (v : α) :
    arrayRead (arrayAssign arr i v) i = some v := by
  unfold arrayRead arrayAssign
  split
  · next h => simp [List.getElem?_set, h]
  · next h =>
    have h1 : (arr ++ List.replicate (i - arr.length) none).length = i := by simp; omega
    rw [List.getElem?_append_right (by omega)]
    simp [h1]

theorem arrayRead_arrayAssign_ne {α : Type} (arr : List (Option α)) (i j : Nat) (v : α)
    (hne : j ≠ i) : arrayRead (arrayAssign arr i v) j = arrayRead arr j := by
  unfold arrayRead arrayAssign
  split
  · next h => simp [List.getElem?_set, Ne.symm hne]
  · next h =>
    rcases Nat.lt_or_ge j arr.length with hj | hj
    · rw [List.append_assoc, List.getElem?_append_left hj]
    · rw [List.getElem?_eq_none hj]
      rcases Nat.lt_or_ge j i with hji | hji
      · rw [List.getElem?_append_left (by simp; omega), List.getElem?_append_right hj,
          List.getElem?_replicate]
        simp
      · rw [List.getElem?_eq_none (by simp; omega)]

theorem arrayAssign_arrayAssign {α : Type} (arr : List (Option α)) (i : Nat) (a b : α) :
    arrayAssign (arrayAssign arr i a) i b = arrayAssign arr i b := by
  have hlen := length_arrayAssign arr i a
  rw [arrayAssign, if_pos (by omega)]
  unfold arrayAssign
  split
  · simp
  · next h =>
    have h1 : (arr ++ List.replicate (i - arr.length) none).length = i := by simp; omega
    rw [List.set_append_right _ _ (by omega)]
    simp [h1]

theorem arrayRead_isSome_lt {α : Type} (arr : List (Option α)) (i : Nat)
    (h : (arrayRead arr i).isSome = true) : i < arr.length := by
  by_contra hge
  rw [arrayRead, List.getElem?_eq_none (by omega)] at h
  simp at h

/-! ## What each method does to the session fields -/

theorem clearSelection_optionButtons (s : App) :
    optionButtons (clearSelection s) = optionButtons s := by
  unfold clearSelection optionButtons
  cases h : s.dom.quiz <;> simp [h]

theorem clearSelection_idem (s : App) : clearSelection (clearSelection s) = clearSelection s := by
  unfold clearSelection
  cases h : s.dom.quiz <;> simp [h]

theorem selectAnswer_currentLesson (a : Nat) (s : App) :
    (selectAnswer a s).1.currentLesson = s.currentLesson := by
  unfold selectAnswer clearSelection markSelected
  cases hq : s.dom.quiz <;> cases hl : s.currentLesson <;> simp [optionButtons, hq, hl] <;>
    split_ifs <;> simp [hl]

theorem selectAnswer_currentQuestionIndex (a : Nat) (s : App) :
    (selectAnswer a s).1.currentQuestionIndex = s.currentQuestionIndex := by
  unfold selectAnswer clearSelection markSelected
  cases hq : s.dom.quiz <;> cases hl : s.currentLesson <;> simp [optionButtons, hq, hl] <;>
    split_ifs <;> simp

theorem selectAnswer_userAnswers (a : Nat) (s : App) :
    (selectAnswer a s).1.userAnswers =
      if a < optionButtons s then arrayAssign s.userAnswers s.currentQuestionIndex a
      else s.userAnswers := by
  unfold selectAnswer clearSelection markSelected
  cases hq : s.dom.quiz <;> cases hl : s.currentLesson <;> simp [optionButtons, hq, hl] <;>
    split_ifs <;> simp

theorem selectAnswer_twice (s : App) (a b : Nat) (hb : b < optionButtons s) :
    selectAnswer b (selectAnswer a s).1 = selectAnswer b s := by
  obtain ⟨w, l, i, ua, u, d, m, r⟩ := s
  obtain ⟨ap, lt, li, pt, q, nb, sb, ol, cb⟩ := d
  cases q with
  | initial => simp [optionButtons] at hb
  | resultsCard res => simp [optionButtons] at hb
  | questionCard question sel =>
    simp only [optionButtons] at hb
    cases l with
    | none =>
      by_cases ha : a < question.options.length
      · simp [selectAnswer, clearSelection, optionButtons, markSelected, ha, hb,
          arrayAssign_arrayAssign]
      · simp [selectAnswer, clearSelection, optionButtons, markSelected, ha, hb]
    | some lesson =>
      by_cases ha : a < question.options.length
      · by_cases hi : (i : Int) < (lesson.questions.length : Int) - 1
        · simp [selectAnswer, clearSelection, optionButtons, markSelected, ha, hb, hi,
            arrayAssign_arrayAssign]
        · simp [selectAnswer, clearSelection, optionButtons, markSelected, ha, hb, hi,
            arrayAssign_arrayAssign]
      · simp [selectAnswer, clearSelection, optionButtons, markSelected, ha, hb]

theorem selectAnswer_idem (s : App) (a : Nat) :
    selectAnswer a (selectAnswer a s).1 = selectAnswer a s := by
  by_cases ha : a < optionButtons s
  · exact selectAnswer_twice s a a ha
  · have h1 : selectAnswer a s = (clearSelection s, .threw) := by
      simp [selectAnswer, clearSelection_optionButtons, ha]
    rw [h1]
    simp [selectAnswer, clearSelection_optionButtons, ha, clearSelection_idem]

theorem showQuestion_fields (i : Nat) (s : App) :
    (showQuestion i s).1.currentLesson = s.currentLesson ∧
    (showQuestion i s).1.currentQuestionIndex = s.currentQuestionIndex ∧
    (showQuestion i s).1.userAnswers = s.userAnswers ∧
    (showQuestion i s).1.messages = s.messages ∧
    (showQuestion i s).1.requests = s.requests := by
  unfold showQuestion
  cases hl : s.currentLesson with
  | none => simp [hl]
  | some lesson =>
    simp only
    cases lesson.questions[i]? <;> simp [hl]

theorem nextQuestion_fields (s : App) :
    (nextQuestion s).1.currentLesson = s.currentLesson ∧
    (nextQuestion s).1.userAnswers = s.userAnswers ∧
    (nextQuestion s).1.messages = s.messages ∧
    (nextQuestion s).1.requests = s.requests := by
  obtain ⟨w, l, i, ua, u, d, m, r⟩ := s
  cases l with
  | none => simp [nextQuestion]
  | some lesson =>
    simp only [nextQuestion]
    split_ifs
    · simp only [showQuestion]
      cases lesson.questions[i + 1]? <;> simp
    · simp

theorem showLessonResults_fields (results : LessonResults) (s : App) :
    (showLessonResults results s).1.currentLesson = s.currentLesson ∧
    (showLessonResults results s).1.currentQuestionIndex = s.currentQuestionIndex ∧
    (showLessonResults results s).1.userAnswers = s.userAnswers ∧
    (showLessonResults results s).1.dom.nextBtnVisible = (s.dom.nextBtnVisible && s.currentUser.isNone) := by
  unfold showLessonResults
  cases hu : s.currentUser <;> simp [hu, showMessage, updateUserInfo]

theorem submitLesson_fields (response : FetchResult LessonResults) (s : App) :
    (submitLesson response s).1.currentLesson = s.currentLesson ∧
    (submitLesson response s).1.currentQuestionIndex = s.currentQuestionIndex ∧
    (submitLesson response s).1.userAnswers = s.userAnswers ∧
    ((submitLesson response s).1.dom.nextBtnVisible = true → s.dom.nextBtnVisible = true) := by
  obtain ⟨w, l, i, ua, u, d, m, r⟩ := s
  cases l with
  | none => simp [submitLesson]
  | some lesson =>
    simp only [submitLesson]
    split_ifs
    · simp [showMessage]
    · cases response with
      | failed => simp [showMessage]
      | notOk => simp [showMessage]
      | ok data => cases u <;> simp [showLessonResults, showMessage, updateUserInfo]

theorem showLessonPage_fields (s : App) :
    (showLessonPage s).1.currentLesson = s.currentLesson ∧
    (showLessonPage s).1.currentQuestionIndex = s.currentQuestionIndex ∧
    (showLessonPage s).1.userAnswers = s.userAnswers := by
  obtain ⟨w, l, i, ua, u, d, m, r⟩ := s
  cases l with
  | none => simp [showLessonPage, hideAllPages]
  | some lesson =>
    simp only [showLessonPage, hideAllPages, showQuestion]
    cases lesson.questions[0]? <;> simp

theorem startLesson_ok_fields (lessonId : String) (lesson : Lesson) (s : App) :
    (startLesson lessonId (.ok lesson) s).1.currentLesson = some lesson ∧
    (startLesson lessonId (.ok lesson) s).1.currentQuestionIndex = 0 ∧
    (startLesson lessonId (.ok lesson) s).1.userAnswers = [] := by
  have h := showLessonPage_fields
    { s with requests := s.requests ++ [lessonRequest lessonId], currentLesson := some lesson,
             currentQuestionIndex := 0, userAnswers := [] }
  simp only [startLesson]
  split
  · next s3 heq => rw [heq] at h; exact h
  · next s3 heq => rw [heq] at h; simpa [showMessage] using h

theorem nextQuestion_of_lt (s : App) (lesson : Lesson) (hl : s.currentLesson = some lesson)
    (hi : s.currentQuestionIndex + 1 < lesson.questions.length) :
    nextQuestion s =
      ({ s with
          currentQuestionIndex := s.currentQuestionIndex + 1
          dom := { s.dom with
            progressText := progressLabel (s.currentQuestionIndex + 1) lesson.questions.length
            quiz := .questionCard (lesson.questions[s.currentQuestionIndex + 1]) none
            optionListeners := s.dom.optionListeners + 1
            nextBtnVisible := false
            submitBtnVisible := false } }, .returned) := by
  obtain ⟨w, l, i, ua, u, d, m, r⟩ := s
  simp only at hl hi
  subst hl
  have hlt : (i : Int) < (lesson.questions.length : Int) - 1 := by omega
  simp [nextQuestion, hlt, showQuestion, List.getElem?_eq_getElem hi]

theorem nextQuestion_of_not_lt (s : App) (lesson : Lesson) (hl : s.currentLesson = some lesson)
    (hi : ¬ s.currentQuestionIndex + 1 < lesson.questions.length) :
    nextQuestion s = (s, .returned) := by
  have hn : ¬ (s.currentQuestionIndex : Int) < (lesson.questions.length : Int) - 1 := by omega
  simp [nextQuestion, hl, hn]

theorem selectAnswer_nextBtn (a : Nat) (s : App)
    (h : (selectAnswer a s).1.dom.nextBtnVisible = true) :
    a < optionButtons s ∨ s.dom.nextBtnVisible = true := by
  by_cases ha : a < optionButtons s
  · exact Or.inl ha
  · right
    have h1 : selectAnswer a s = (clearSelection s, .threw) := by
      simp [selectAnswer, clearSelection_optionButtons, ha]
    rw [h1] at h
    revert h
    unfold clearSelection
    cases s.dom.quiz <;> simp

theorem submitLesson_of_mismatch (response : FetchResult LessonResults) (s : App)
    (lesson : Lesson) (hl : s.currentLesson = some lesson)
    (hne : s.userAnswers.length ≠ lesson.questions.length) :
    submitLesson response s = (showMessage "Please answer all questions" "error" s, .returned) := by
  simp [submitLesson, hl, hne]

theorem submitLesson_requests_of_match (response : FetchResult LessonResults) (s : App)
    (lesson : Lesson) (hl : s.currentLesson = some lesson)
    (heq : s.userAnswers.length = lesson.questions.length) :
    (submitLesson response s).1.requests = s.requests ++ [submitRequest lesson s.userAnswers] := by
  obtain ⟨w, l, i, ua, u, d, m, r⟩ := s
  simp only at hl heq
  subst hl
  cases response with
  | failed => simp [submitLesson, heq, showMessage]
  | notOk => simp [submitLesson, heq, showMessage]
  | ok data => cases u <;> simp [submitLesson, heq, showLessonResults, showMessage, updateUserInfo]

theorem startLesson_ok_nextBtn (lessonId : String) (lesson : Lesson) (s : App)
    (hN : 1 ≤ lesson.questions.length) :
    (startLesson lessonId (.ok lesson) s).1.dom.nextBtnVisible = false := by
  have hq : lesson.questions[0]? = some (lesson.questions[0]) := List.getElem?_eq_getElem hN
  simp [startLesson, showLessonPage, hideAllPages, showQuestion, hq]

/-! ## Invariants of a session -/

theorem sessionInv_startLesson (lessonId : String) (lesson : Lesson) (s : App)
    (hN : 1 ≤ lesson.questions.length) :
    SessionInv lesson (startLesson lessonId (.ok lesson) s).1 := by
  obtain ⟨h1, h2, h3⟩ := startLesson_ok_fields lessonId lesson s
  exact ⟨h1, by omega, by simp [h3]⟩

theorem sessionInv_step (lesson : Lesson) (s : App) (call : Call)
    (h : SessionInv lesson s) : SessionInv lesson (step s call) := by
  obtain ⟨hl, hi, hlen⟩ := h
  cases call with
  | selectAnswer a =>
    refine ⟨by simp [step, selectAnswer_currentLesson, hl],
      by simp [step, selectAnswer_currentQuestionIndex, hi], ?_⟩
    simp only [step, selectAnswer_userAnswers]
    split_ifs
    · rw [length_arrayAssign]; omega
    · exact hlen
  | nextQuestion =>
    by_cases hlt : s.currentQuestionIndex + 1 < lesson.questions.length
    · simp only [step, nextQuestion_of_lt s lesson hl hlt]
      exact ⟨hl, hlt, hlen⟩
    · simp only [step, nextQuestion_of_not_lt s lesson hl hlt]
      exact ⟨hl, hi, hlen⟩
  | submitLesson response =>
    obtain ⟨h1, h2, h3, _⟩ := submitLesson_fields response s
    exact ⟨by simp [step, h1, hl], by simp [step, h2, hi], by simp [step, h3, hlen]⟩

theorem sessionInv_run (lesson : Lesson) (calls : List Call) (s : App)
    (h : SessionInv lesson s) : SessionInv lesson (run s calls) := by
  induction calls generalizing s with
  | nil => exact h
  | cons call calls ih => exact ih (step s call) (sessionInv_step lesson s call h)

theorem gatedInv_startLesson (lessonId : String) (lesson : Lesson) (s : App)
    (hN : 1 ≤ lesson.questions.length) :
    GatedInv lesson (startLesson lessonId (.ok lesson) s).1 := by
  obtain ⟨h1, h2, h3⟩ := startLesson_ok_fields lessonId lesson s
  have h4 := startLesson_ok_nextBtn lessonId lesson s hN
  exact ⟨h1, by omega, by simp [h3], by omega, by simp [h3], by simp [h4]⟩

theorem arrayAssign_no_hole {α : Type} (arr : List (Option α)) (i : Nat) (v : α)
    (hall : ∀ x ∈ arr, x.isSome = true) (hi : i ≤ arr.length) :
    ∀ x ∈ arrayAssign arr i v, x.isSome = true := by
  intro x hx
  unfold arrayAssign at hx
  split_ifs at hx with hlt
  · rcases List.mem_or_eq_of_mem_set hx with hm | rfl
    · exact hall x hm
    · rfl
  · have h0 : i - arr.length = 0 := by omega
    simp [h0] at hx
    rcases hx with hm | rfl
    · exact hall x hm
    · rfl

theorem gatedInv_step (lesson : Lesson) (s : App) (call : Call)
    (h : GatedInv lesson s) (hgate : call = .nextQuestion → s.dom.nextBtnVisible = true) :
    GatedInv lesson (step s call) := by
  obtain ⟨hl, hi, hall, hlo, hhi, hbtn⟩ := h
  cases call with
  | selectAnswer a =>
    have hidx := selectAnswer_currentQuestionIndex a s
    have hua := selectAnswer_userAnswers a s
    by_cases ha : a < optionButtons s
    · rw [if_pos ha] at hua
      have hlen := length_arrayAssign s.userAnswers s.currentQuestionIndex a
      refine ⟨by simp [step, selectAnswer_currentLesson, hl], by simp [step, hidx, hi], ?_,
        ?_, ?_, ?_⟩
      · simp only [step, hua]
        exact arrayAssign_no_hole _ _ _ hall hlo
      · simp only [step, hua, hidx, hlen]; omega
      · simp only [step, hua, hidx, hlen]; omega
      · intro _
        simp only [step, hua, hidx, hlen]; omega
    · rw [if_neg ha] at hua
      refine ⟨by simp [step, selectAnswer_currentLesson, hl], by simp [step, hidx, hi], ?_,
        ?_, ?_, ?_⟩
      · simpa only [step, hua] using hall
      · simpa only [step, hua, hidx] using hlo
      · simpa only [step, hua, hidx] using hhi
      · intro hb
        simp only [step] at hb
        rcases selectAnswer_nextBtn a s hb with h1 | h1
        · exact absurd h1 ha
        · simpa only [step, hua, hidx] using hbtn h1
  | nextQuestion =>
    have hlen := hbtn (hgate rfl)
    by_cases hlt : s.currentQuestionIndex + 1 < lesson.questions.length
    · simp only [step, nextQuestion_of_lt s lesson hl hlt]
      exact ⟨hl, hlt, hall, by simp only; omega, by simp only; omega, by simp⟩
    · simp only [step, nextQuestion_of_not_lt s lesson hl hlt]
      exact ⟨hl, hi, hall, hlo, hhi, hbtn⟩
  | submitLesson response =>
    obtain ⟨h1, h2, h3, h4⟩ := submitLesson_fields response s
    refine ⟨by simp [step, h1, hl], by simp [step, h2, hi], by simpa only [step, h3] using hall,
      by simpa only [step, h2, h3] using hlo, by simpa only [step, h2, h3] using hhi, ?_⟩
    intro hb
    simpa only [step, h2, h3] using hbtn (h4 hb)

theorem gatedInv_run (lesson : Lesson) (calls : List Call) (s : App)
    (h : GatedInv lesson s) (hg : gated s calls = true) : GatedInv lesson (run s calls) := by
  induction calls generalizing s with
  | nil => exact h
  | cons call calls ih =>
    cases call with
    | selectAnswer a =>
      exact ih _ (gatedInv_step lesson s _ h (by simp)) (by simpa [gated] using hg)
    | nextQuestion =>
      simp only [gated, Bool.and_eq_true] at hg
      exact ih _ (gatedInv_step lesson s _ h (fun _ => hg.1)) hg.2
    | submitLesson response =>
      exact ih _ (gatedInv_step lesson s _ h (by simp)) (by simpa [gated] using hg)

theorem gatedInv_length_eq_iff (lesson : Lesson) (s : App) (h : GatedInv lesson s) :
    s.userAnswers.length = lesson.questions.length ↔
      ∀ i, i < lesson.questions.length → answered s i = true := by
  obtain ⟨hl, hi, hall, hlo, hhi, hbtn⟩ := h
  constructor
  · intro hlen i hiN
    have hlt : i < s.userAnswers.length := by omega
    have hm := hall _ (List.getElem_mem hlt)
    simp only [answered, arrayRead, List.getElem?_eq_getElem hlt]
    cases hx : s.userAnswers[i] with
    | none => simp [hx] at hm
    | some v => simp
  · intro hans
    have h1 := arrayRead_isSome_lt _ _ (hans (lesson.questions.length - 1) (by omega))
    omega

theorem gatedInv_of_gatedSession (lesson : Lesson) (s : App)
    (hN : 1 ≤ lesson.questions.length) (hs : GatedSession lesson s) : GatedInv lesson s := by
  obtain ⟨s0, lessonId, calls, hg, rfl⟩ := hs
  exact gatedInv_run lesson calls _ (gatedInv_startLesson lessonId lesson s0 hN) hg

theorem gatedSession_sampleStart (calls : List Call) (hg : gated sampleStart calls = true) :
    GatedSession sampleLesson (run sampleStart calls) :=
  ⟨initialApp, "L1", calls, hg, rfl⟩

/-! ## Answering in order -/

theorem arrayAssign_length {α : Type} (arr : List (Option α)) (v : α) :
    arrayAssign arr arr.length v = arr ++ [some v] := by
  simp [arrayAssign]

theorem optionButtons_of_quiz (s : App) (q : Question) (sel : Option Nat)
    (h : s.dom.quiz = .questionCard q sel) : optionButtons s = q.options.length := by
  simp [optionButtons, h]

theorem startLesson_ok_quiz (lessonId : String) (lesson : Lesson) (s : App)
    (hN : 0 < lesson.questions.length) :
    (startLesson lessonId (.ok lesson) s).1.dom.quiz = .questionCard (lesson.questions[0]) none := by
  have hq : lesson.questions[0]? = some (lesson.questions[0]) := List.getElem?_eq_getElem hN
  simp [startLesson, showLessonPage, hideAllPages, showQuestion, hq]

theorem run_answerInOrder (lesson : Lesson) (choices : List Nat) :
    ∀ (s : App) (done rest : List Question) (sel : Option Nat),
      s.currentLesson = some lesson →
      lesson.questions = done ++ rest →
      s.currentQuestionIndex = done.length →
      s.userAnswers.length = done.length →
      (∃ q qs, rest = q :: qs ∧ s.dom.quiz = .questionCard q sel) →
      List.Forall₂ (fun c q => c < q.options.length) choices rest →
      (run s (answerInOrder choices)).userAnswers = s.userAnswers ++ choices.map some ∧
      (run s (answerInOrder choices)).currentLesson = some lesson ∧
      (run s (answerInOrder choices)).currentQuestionIndex + 1 = lesson.questions.length := by
  induction choices with
  | nil =>
    intro s done rest sel _ _ _ _ hq hv
    obtain ⟨q, qs, hrest, _⟩ := hq
    subst hrest
    cases hv
  | cons c cs ih =>
    intro s done rest sel hl hqs hidx hlen hq hv
    obtain ⟨q, qs, hrest, hquiz⟩ := hq
    subst hrest
    cases hv with
    | cons hc hv =>
    have hbtn : c < optionButtons s := by rw [optionButtons_of_quiz s q sel hquiz]; exact hc
    have hua : (selectAnswer c s).1.userAnswers = s.userAnswers ++ [some c] := by
      rw [selectAnswer_userAnswers, if_pos hbtn, hidx, ← hlen, arrayAssign_length]
    have hl1 := selectAnswer_currentLesson c s
    have hi1 := selectAnswer_currentQuestionIndex c s
    cases cs with
    | nil =>
      cases hv
      simp only [answerInOrder, run, List.foldl, step]
      refine ⟨by simp [hua], by rw [hl1, hl], ?_⟩
      rw [hi1, hidx, hqs]
      simp
    | cons c2 cs2 =>
      cases hv with
      | cons hc2 hv2 =>
      rename_i q2 qs2
      have hlt : (selectAnswer c s).1.currentQuestionIndex + 1 < lesson.questions.length := by
        rw [hi1, hidx, hqs]; simp
      have hnext := nextQuestion_of_lt (selectAnswer c s).1 lesson (by rw [hl1, hl]) hlt
      have hget : lesson.questions[(selectAnswer c s).1.currentQuestionIndex + 1] = q2 := by
        have h1 : lesson.questions[(selectAnswer c s).1.currentQuestionIndex + 1]? = some q2 := by
          rw [hi1, hidx, hqs]
          rw [List.getElem?_append_right (by omega)]
          simp
        rw [List.getElem?_eq_getElem hlt] at h1
        exact Option.some.inj h1
      have hstep : run s (answerInOrder (c :: c2 :: cs2)) =
          run (nextQuestion (selectAnswer c s).1).1 (answerInOrder (c2 :: cs2)) := by
        simp [answerInOrder, run, step]
      rw [hstep]
      have key := ih (nextQuestion (selectAnswer c s).1).1 (done ++ [q]) (q2 :: qs2) none
        (by rw [hnext]; simp [hl1, hl])
        (by rw [hqs]; simp)
        (by rw [hnext]; simp [hi1, hidx])
        (by rw [hnext]; simp [hua, hlen])
        ⟨q2, qs2, rfl, by rw [hnext]; simp [hget]⟩
        (List.Forall₂.cons hc2 hv2)
      obtain ⟨k1, k2, k3⟩ := key
      refine ⟨?_, k2, k3⟩
      rw [k1, hnext]
      simp [hua]

/-! ## Submitting -/

/-- C1, as stated, fails: in a three-question lesson the calls `nextQuestion`,
`nextQuestion`, `selectAnswer(1)` after `startLesson` leave the answers
`[hole, hole, 1]`, of length 3, so `submitLesson` sends the request although
questions 0 and 1 have no recorded answer. -/
theorem submitLesson_passes_with_gaps :
    1 ≤ sampleLesson.questions.length ∧
    Session sampleLesson sampleSkippedTwo ∧
    sampleSkippedTwo.userAnswers = [none, none, some 1] ∧
    (submitLesson .notOk sampleSkippedTwo).1.requests =
      sampleSkippedTwo.requests ++ [submitRequest sampleLesson [none, none, some 1]] ∧
    answered sampleSkippedTwo 0 = false ∧
    answered sampleSkippedTwo 1 = false :=
  ⟨by decide, ⟨initialApp, "L1", _, rfl⟩, by decide, by decide, by decide, by decide⟩

/-- C1, amended: for every lesson with at least one question and every session
state reached from `startLesson` by calls of `selectAnswer`, `nextQuestion`
and `submitLesson` in which `nextQuestion` is only called while the next
button is displayed, `submitLesson` passes its local check and sends the
request if and only if every question index below the number of questions has
a recorded answer; when some answer is missing it only shows `Please answer
all questions`. -/
theorem gated_submit_iff_all_answered (lesson : Lesson) (s : App)
    (response : FetchResult LessonResults)
    (hN : 1 ≤ lesson.questions.length) (hs : GatedSession lesson s) :
    ((submitLesson response s).1.requests = s.requests ++ [submitRequest lesson s.userAnswers] ↔
      ∀ i, i < lesson.questions.length → answered s i = true) ∧
    ((∃ i, i < lesson.questions.length ∧ answered s i = false) →
      submitLesson response s = (showMessage "Please answer all questions" "error" s, .returned)) := by
  have hinv := gatedInv_of_gatedSession lesson s hN hs
  have hiff := gatedInv_length_eq_iff lesson s hinv
  have hl := hinv.1
  constructor
  · rw [← hiff]
    constructor
    · intro hreq
      by_contra hne
      rw [submitLesson_of_mismatch response s lesson hl hne] at hreq
      simp [showMessage] at hreq
    · exact submitLesson_requests_of_match response s lesson hl
  · rintro ⟨i, hi, hfalse⟩
    apply submitLesson_of_mismatch response s lesson hl
    intro heq
    have := hiff.mp heq i hi
    simp [hfalse] at this

theorem gated_submit_iff_all_answered_witness :
    ((submitLesson .notOk (run sampleStart [.selectAnswer 1, .nextQuestion])).1.requests =
        (run sampleStart [.selectAnswer 1, .nextQuestion]).requests ++
          [submitRequest sampleLesson (run sampleStart [.selectAnswer 1, .nextQuestion]).userAnswers] ↔
      ∀ i, i < sampleLesson.questions.length →
        answered (run sampleStart [.selectAnswer 1, .nextQuestion]) i = true) :=
  (gated_submit_iff_all_answered sampleLesson (run sampleStart [.selectAnswer 1, .nextQuestion])
    .notOk (by decide) (gatedSession_sampleStart _ (by decide))).1

/-- C2: for every lesson with at least one question, after `startLesson` and
answering each question in order with an option index of that question
(`selectAnswer`, then `nextQuestion`, and a last `selectAnswer`), `userAnswers`
holds exactly the chosen indices in question order, the session stands on the
last question, and `submitLesson` passes its check and sends these answers. -/
theorem answerInOrder_complete (lesson : Lesson) (choices : List Nat) (s0 : App)
    (lessonId : String) (response : FetchResult LessonResults)
    (hN : 1 ≤ lesson.questions.length)
    (hvalid : List.Forall₂ (fun c q => c < q.options.length) choices lesson.questions) :
    (run (startLesson lessonId (.ok lesson) s0).1 (answerInOrder choices)).userAnswers =
      choices.map some ∧
    (run (startLesson lessonId (.ok lesson) s0).1 (answerInOrder choices)).currentQuestionIndex + 1 =
      lesson.questions.length ∧
    (submitLesson response
        (run (startLesson lessonId (.ok lesson) s0).1 (answerInOrder choices))).1.requests =
      (run (startLesson lessonId (.ok lesson) s0).1 (answerInOrder choices)).requests ++
        [submitRequest lesson (choices.map some)] := by
  obtain ⟨h1, h2, h3⟩ := startLesson_ok_fields lessonId lesson s0
  have hquiz := startLesson_ok_quiz lessonId lesson s0 hN
  have hcons : ∃ q qs, lesson.questions = q :: qs ∧
      (startLesson lessonId (.ok lesson) s0).1.dom.quiz = .questionCard q none := by
    cases hq : lesson.questions with
    | nil => simp [hq] at hN
    | cons q qs => exact ⟨q, qs, rfl, by rw [hquiz]; simp [hq]⟩
  obtain ⟨k1, k2, k3⟩ := run_answerInOrder lesson choices (startLesson lessonId (.ok lesson) s0).1
    [] lesson.questions none h1 (by simp) (by simp [h2]) (by simp [h3]) hcons hvalid
  rw [h3] at k1
  simp only [List.nil_append] at k1
  refine ⟨k1, k3, ?_⟩
  have hreq := submitLesson_requests_of_match response _ lesson k2
    (by rw [k1, List.length_map]; exact hvalid.length_eq)
  rw [hreq, k1]

theorem answerInOrder_complete_witness :
    (run sampleStart (answerInOrder [1, 0, 2])).userAnswers = [some 1, some 0, some 2] ∧
    (submitLesson .notOk (run sampleStart (answerInOrder [1, 0, 2]))).1.requests =
      (run sampleStart (answerInOrder [1, 0, 2])).requests ++
        [submitRequest sampleLesson [some 1, some 0, some 2]] :=
  have h := answerInOrder_complete sampleLesson [1, 0, 2] initialApp "L1" .notOk (by decide)
    (.cons (by decide) (.cons (by decide) (.cons (by decide) .nil)))
  ⟨h.1, h.2.2⟩

/-- C3, as stated, fails: in a three-question lesson the calls `nextQuestion`,
`selectAnswer(0)`, `nextQuestion`, `selectAnswer(2)` leave the answers
`[hole, 0, 2]`; question 0 has no answer, yet `submitLesson` issues the
request and the message shown is not `Please answer all questions`. -/
theorem submitLesson_fetches_with_gap :
    Session sampleLesson sampleSkippedFirst ∧
    answered sampleSkippedFirst 0 = false ∧
    (submitLesson .failed sampleSkippedFirst).1.requests =
      sampleSkippedFirst.requests ++ [submitRequest sampleLesson [none, some 0, some 2]] ∧
    (submitLesson .failed sampleSkippedFirst).1.messages =
      sampleSkippedFirst.messages ++ [⟨"Network error submitting lesson", "error"⟩] :=
  ⟨⟨initialApp, "L1", _, rfl⟩, by decide, by decide, by decide⟩

/-- C3, amended: `submitLesson` refuses locally, before any network call,
whenever its check fails, that is whenever `userAnswers.length` differs from
the number of questions; this is the case in every session with a missing
answer that was reached with `nextQuestion` only called while the next button
is displayed. The refusal shows `Please answer all questions` as an error,
issues no request and changes nothing else. -/
theorem submitLesson_refuses_locally (lesson : Lesson) (s : App)
    (response : FetchResult LessonResults)
    (hl : s.currentLesson = some lesson)
    (hinc : s.userAnswers.length ≠ lesson.questions.length ∨
      (1 ≤ lesson.questions.length ∧ GatedSession lesson s ∧
        ∃ i, i < lesson.questions.length ∧ answered s i = false)) :
    submitLesson response s = (showMessage "Please answer all questions" "error" s, .returned) ∧
    (submitLesson response s).1.requests = s.requests ∧
    (submitLesson response s).1.messages =
      s.messages ++ [⟨"Please answer all questions", "error"⟩] := by
  have hne : s.userAnswers.length ≠ lesson.questions.length := by
    rcases hinc with h | ⟨hN, hs, i, hi, hfalse⟩
    · exact h
    · intro heq
      have hinv := gatedInv_of_gatedSession lesson s hN hs
      have := (gatedInv_length_eq_iff lesson s hinv).mp heq i hi
      simp [hfalse] at this
  have h := submitLesson_of_mismatch response s lesson hl hne
  rw [h]
  simp [showMessage]

theorem submitLesson_refuses_locally_witness :
    (submitLesson (.ok ⟨3, 10, 10, 3, false, ⟨1, 1, 1, 1⟩, []⟩) sampleAtLast).1.requests =
      sampleAtLast.requests ∧
    (submitLesson (.ok ⟨3, 10, 10, 3, false, ⟨1, 1, 1, 1⟩, []⟩) sampleAtLast).1.messages =
      sampleAtLast.messages ++ [⟨"Please answer all questions", "error"⟩] :=
  (submitLesson_refuses_locally sampleLesson sampleAtLast _ rfl (Or.inl (by decide))).2

/-! ## Selecting an answer -/

/-- C4: `selectAnswer` is last-write-wins and idempotent per question. For any
state and any `a`, and any `b` that is the index of a rendered option button,
`selectAnswer(a)` followed by `selectAnswer(b)` leaves `b` at the current
question index, every other entry, the index and the lesson as they were, and
ends exactly where `selectAnswer(b)` alone ends; `selectAnswer(a)` twice ends
exactly where `selectAnswer(a)` once ends. -/
theorem selectAnswer_last_write_wins (s : App) (a b : Nat) (hb : b < optionButtons s) :
    arrayRead (selectAnswer b (selectAnswer a s).1).1.userAnswers s.currentQuestionIndex = some b ∧
    (∀ j, j ≠ s.currentQuestionIndex →
      arrayRead (selectAnswer b (selectAnswer a s).1).1.userAnswers j = arrayRead s.userAnswers j) ∧
    (selectAnswer b (selectAnswer a s).1).1.currentQuestionIndex = s.currentQuestionIndex ∧
    (selectAnswer b (selectAnswer a s).1).1.currentLesson = s.currentLesson ∧
    selectAnswer b (selectAnswer a s).1 = selectAnswer b s ∧
    selectAnswer a (selectAnswer a s).1 = selectAnswer a s := by
  rw [selectAnswer_twice s a b hb]
  refine ⟨?_, ?_, selectAnswer_currentQuestionIndex b s, selectAnswer_currentLesson b s, rfl,
    selectAnswer_idem s a⟩
  · rw [selectAnswer_userAnswers, if_pos hb]
    exact arrayRead_arrayAssign_self _ _ _
  · intro j hj
    rw [selectAnswer_userAnswers, if_pos hb]
    exact arrayRead_arrayAssign_ne _ _ _ _ hj

theorem selectAnswer_last_write_wins_witness :
    arrayRead (selectAnswer 2 (selectAnswer 1 sampleStart).1).1.userAnswers
        sampleStart.currentQuestionIndex = some 2 ∧
    selectAnswer 2 (selectAnswer 1 sampleStart).1 = selectAnswer 2 sampleStart :=
  have h := selectAnswer_last_write_wins sampleStart 1 2 (by decide)
  ⟨h.1, h.2.2.2.2.1⟩

/-! ## Advancing -/

/-- C5: before the last question `nextQuestion` adds exactly one to
`currentQuestionIndex`, keeps the lesson and the recorded answers, and shows
the question at the new index (its card and its progress text), returning
normally. -/
theorem nextQuestion_advances (s : App) (lesson : Lesson)
    (hl : s.currentLesson = some lesson)
    (hlt : (s.currentQuestionIndex : Int) < (lesson.questions.length : Int) - 1) :
    (nextQuestion s).1.currentQuestionIndex = s.currentQuestionIndex + 1 ∧
    (nextQuestion s).1.currentLesson = s.currentLesson ∧
    (nextQuestion s).1.userAnswers = s.userAnswers ∧
    (∃ question, lesson.questions[s.currentQuestionIndex + 1]? = some question ∧
      (nextQuestion s).1.dom.quiz = .questionCard question none) ∧
    (nextQuestion s).1.dom.progressText =
      progressLabel (s.currentQuestionIndex + 1) lesson.questions.length ∧
    (nextQuestion s).2 = .returned := by
  obtain ⟨w, l, i, ua, u, d, m, r⟩ := s
  simp only at hl hlt
  subst hl
  have hi : i + 1 < lesson.questions.length := by omega
  have hq : lesson.questions[i + 1]? = some (lesson.questions[i + 1]) :=
    List.getElem?_eq_getElem hi
  simp [nextQuestion, hlt, showQuestion, hq]

theorem nextQuestion_advances_witness :
    (nextQuestion sampleStart).1.currentQuestionIndex = 1 ∧
    (nextQuestion sampleStart).1.dom.progressText = "Question 2 of 3" :=
  have h := nextQuestion_advances sampleStart sampleLesson rfl (by decide)
  ⟨h.1, h.2.2.2.2.1⟩

/-- C6: on the last question `nextQuestion` changes neither
`currentQuestionIndex`, nor the recorded answers, nor the current lesson. -/
theorem nextQuestion_last_frame (s : App) (lesson : Lesson)
    (hl : s.currentLesson = some lesson)
    (hlast : (s.currentQuestionIndex : Int) = (lesson.questions.length : Int) - 1) :
    (nextQuestion s).1.currentQuestionIndex = s.currentQuestionIndex ∧
    (nextQuestion s).1.userAnswers = s.userAnswers ∧
    (nextQuestion s).1.currentLesson = s.currentLesson := by
  have hn : ¬ (s.currentQuestionIndex : Int) < (lesson.questions.length : Int) - 1 := by omega
  simp [nextQuestion, hl, hn]

theorem nextQuestion_last_frame_witness :
    (nextQuestion sampleAtLast).1.currentQuestionIndex = 2 ∧
    (nextQuestion sampleAtLast).1.userAnswers = [some 1, some 0] :=
  have h := nextQuestion_last_frame sampleAtLast sampleLesson rfl (by decide)
  ⟨h.1, h.2.1⟩

/-- C7, as stated, fails: on the last question of a three-question lesson
`nextQuestion` returns normally and shows no message, so no error reaches the
caller. -/
theorem nextQuestion_last_no_error :
    sampleAtLast.currentLesson = some sampleLesson ∧
    (sampleAtLast.currentQuestionIndex : Int) = (sampleLesson.questions.length : Int) - 1 ∧
    (nextQuestion sampleAtLast).2 ≠ .threw ∧
    (nextQuestion sampleAtLast).1.messages = sampleAtLast.messages := by
  decide

/-- C7, amended: on the last question `nextQuestion` completes normally and
silently: it returns without an exception, shows no message, issues no
request and leaves the page as it was. -/
theorem nextQuestion_last_silent (s : App) (lesson : Lesson)
    (hl : s.currentLesson = some lesson)
    (hlast : (s.currentQuestionIndex : Int) = (lesson.questions.length : Int) - 1) :
    (nextQuestion s).2 = .returned ∧
    (nextQuestion s).1.messages = s.messages ∧
    (nextQuestion s).1.requests = s.requests ∧
    (nextQuestion s).1.dom = s.dom := by
  have hn : ¬ (s.currentQuestionIndex : Int) < (lesson.questions.length : Int) - 1 := by omega
  simp [nextQuestion, hl, hn]

theorem nextQuestion_last_silent_witness :
    (nextQuestion sampleAtLast).2 = .returned ∧
    (nextQuestion sampleAtLast).1.dom = sampleAtLast.dom :=
  have h := nextQuestion_last_silent sampleAtLast sampleLesson rfl (by decide)
  ⟨h.1, h.2.2.2⟩

/-! ## The session invariant -/

/-- C8: for every lesson with at least one question, every state reached from
`startLesson` by calls of `selectAnswer`, `nextQuestion` and `submitLesson`
has `currentQuestionIndex` below the number of questions, holds answers only
at indices below the number of questions, and has an answer array no longer
than the question list. -/
theorem session_invariant (lesson : Lesson) (s : App)
    (hN : 1 ≤ lesson.questions.length) (hs : Session lesson s) :
    s.currentQuestionIndex < lesson.questions.length ∧
    (∀ i, answered s i = true → i < lesson.questions.length) ∧
    s.userAnswers.length ≤ lesson.questions.length := by
  obtain ⟨s0, lessonId, calls, rfl⟩ := hs
  obtain ⟨_, hi, hlen⟩ := sessionInv_run lesson calls _ (sessionInv_startLesson lessonId lesson s0 hN)
  refine ⟨hi, ?_, hlen⟩
  intro i hans
  have := arrayRead_isSome_lt _ _ hans
  omega

theorem session_invariant_witness :
    sampleSkippedTwo.currentQuestionIndex < 3 ∧ sampleSkippedTwo.userAnswers.length ≤ 3 :=
  have h := session_invariant sampleLesson sampleSkippedTwo (by decide) ⟨initialApp, "L1", _, rfl⟩
  ⟨h.1, h.2.2⟩

/-! ## Starting a lesson -/

/-- C9: `startLesson` on a successfully fetched lesson resets the session
whatever the state before: the fetched lesson is current, no answer is
recorded and the index is 0. -/
theorem startLesson_resets (lessonId : String) (lesson : Lesson) (s : App) :
    (startLesson lessonId (.ok lesson) s).1.currentLesson = some lesson ∧
    (startLesson lessonId (.ok lesson) s).1.userAnswers = [] ∧
    (startLesson lessonId (.ok lesson) s).1.currentQuestionIndex = 0 :=
  ⟨(startLesson_ok_fields lessonId lesson s).1, (startLesson_ok_fields lessonId lesson s).2.2,
    (startLesson_ok_fields lessonId lesson s).2.1⟩

/-- C10, at a failing input: a fetched lesson without questions is not
rejected. From the initial state it becomes the current lesson with index 0
and no answers, and the one message shown is the generic loading error of the
`catch` branch. From a session with all answers given, the session is
overwritten in the same way while the page keeps the card of the old question
and the submit button on display, so that `submitLesson` passes its check and
posts the empty answers for the empty lesson; the other failing paths of
`startLesson`, a thrown request or a status that is not OK, leave the session
as it was. -/
theorem startLesson_empty_enters_session :
    emptyLesson.questions = [] ∧
    (startLesson "L0" (.ok emptyLesson) initialApp).1.currentLesson = some emptyLesson ∧
    (startLesson "L0" (.ok emptyLesson) initialApp).1.currentQuestionIndex = 0 ∧
    (startLesson "L0" (.ok emptyLesson) initialApp).1.userAnswers = [] ∧
    (startLesson "L0" (.ok emptyLesson) initialApp).1.messages =
      [⟨"Network error loading lesson", "error"⟩] ∧
    sampleAnswered.userAnswers = [some 1, some 0, some 2] ∧
    (startLesson "L0" (.ok emptyLesson) sampleAnswered).1.currentLesson = some emptyLesson ∧
    (startLesson "L0" (.ok emptyLesson) sampleAnswered).1.userAnswers = [] ∧
    (startLesson "L0" (.ok emptyLesson) sampleAnswered).1.dom.quiz = sampleAnswered.dom.quiz ∧
    (startLesson "L0" (.ok emptyLesson) sampleAnswered).1.dom.submitBtnVisible = true ∧
    (submitLesson .notOk (startLesson "L0" (.ok emptyLesson) sampleAnswered).1).1.requests =
      (startLesson "L0" (.ok emptyLesson) sampleAnswered).1.requests ++
        [submitRequest emptyLesson []] ∧
    (startLesson "L0" .notOk sampleAnswered).1.currentLesson = sampleAnswered.currentLesson ∧
    (startLesson "L0" .notOk sampleAnswered).1.userAnswers = sampleAnswered.userAnswers ∧
    (startLesson "L0" .failed sampleAnswered).1.currentLesson = sampleAnswered.currentLesson ∧
    (startLesson "L0" .failed sampleAnswered).1.userAnswers = sampleAnswered.userAnswers := by
  decide

/-! ## Failing submissions and the revealed control -/

theorem submitLesson_dom_of_no_data (s : App) :
    (submitLesson .failed s).1.dom = s.dom ∧ (submitLesson .notOk s).1.dom = s.dom ∧
    (submitLesson .failed s).1.currentUser = s.currentUser ∧
    (submitLesson .notOk s).1.currentUser = s.currentUser := by
  obtain ⟨w, l, i, ua, u, d, m, r⟩ := s
  cases l with
  | none => simp [submitLesson]
  | some lesson =>
    simp only [submitLesson]
    split_ifs <;> simp [showMessage]

/-- C11: a failing `submitLesson` leaves the session as it was. For every
state and every answer of the server, refused or sent, `currentLesson`,
`currentQuestionIndex` and `userAnswers` after the call are the ones before;
when the request throws or the status is not OK the page elements and the
user are unchanged as well, so the submit button is still there to retry. -/
theorem submitLesson_keeps_session (response : FetchResult LessonResults) (s : App) :
    (submitLesson response s).1.currentLesson = s.currentLesson ∧
    (submitLesson response s).1.currentQuestionIndex = s.currentQuestionIndex ∧
    (submitLesson response s).1.userAnswers = s.userAnswers ∧
    (submitLesson .failed s).1.dom = s.dom ∧
    (submitLesson .notOk s).1.dom = s.dom := by
  obtain ⟨h1, h2, h3, _⟩ := submitLesson_fields response s
  obtain ⟨h4, h5, _, _⟩ := submitLesson_dom_of_no_data s
  exact ⟨h1, h2, h3, h4, h5⟩

/-- C12: `selectAnswer` tells whether the answered question is the last one
by the control it reveals. In a state whose index names a question, for a
rendered option, the call returns normally; on the last question it displays
the submit button and leaves the next button as it was, on any other question
it displays the next button and leaves the submit button as it was. From a
state with both buttons hidden, as `showQuestion` leaves them, the submit
button is displayed afterwards exactly on the last question and the next
button exactly on the others. -/
theorem selectAnswer_reveals_control (s : App) (lesson : Lesson) (a : Nat)
    (hl : s.currentLesson = some lesson)
    (hi : s.currentQuestionIndex < lesson.questions.length)
    (ha : a < optionButtons s) :
    (selectAnswer a s).2 = .returned ∧
    ((s.currentQuestionIndex : Int) = (lesson.questions.length : Int) - 1 →
      (selectAnswer a s).1.dom.submitBtnVisible = true ∧
      (selectAnswer a s).1.dom.nextBtnVisible = s.dom.nextBtnVisible) ∧
    ((s.currentQuestionIndex : Int) ≠ (lesson.questions.length : Int) - 1 →
      (selectAnswer a s).1.dom.nextBtnVisible = true ∧
      (selectAnswer a s).1.dom.submitBtnVisible = s.dom.submitBtnVisible) ∧
    (s.dom.nextBtnVisible = false → s.dom.submitBtnVisible = false →
      (((selectAnswer a s).1.dom.submitBtnVisible = true ↔
          (s.currentQuestionIndex : Int) = (lesson.questions.length : Int) - 1) ∧
       ((selectAnswer a s).1.dom.nextBtnVisible = true ↔
          (s.currentQuestionIndex : Int) ≠ (lesson.questions.length : Int) - 1))) := by
  obtain ⟨w, l, i, ua, u, d, m, r⟩ := s
  obtain ⟨ap, lt, li, pt, q, nb, sb, ol, cb⟩ := d
  simp only at hl hi
  subst hl
  cases q with
  | initial => simp [optionButtons] at ha
  | resultsCard res => simp [optionButtons] at ha
  | questionCard question sel =>
    simp only [optionButtons] at ha
    by_cases hlt : (i : Int) < (lesson.questions.length : Int) - 1
    · have hne : ¬ (i : Int) = (lesson.questions.length : Int) - 1 := by omega
      simp [selectAnswer, clearSelection, optionButtons, markSelected, ha, hlt, hne]
    · have heq : (i : Int) = (lesson.questions.length : Int) - 1 := by omega
      simp [selectAnswer, clearSelection, optionButtons, markSelected, ha, hlt, heq]
      intro h1 h2
      simp [h1, h2]

theorem selectAnswer_reveals_control_witness :
    ((selectAnswer 1 sampleAtLast).1.dom.submitBtnVisible = true ↔
        (sampleAtLast.currentQuestionIndex : Int) = (sampleLesson.questions.length : Int) - 1) ∧
    ((selectAnswer 1 sampleStart).1.dom.nextBtnVisible = true ↔
        (sampleStart.currentQuestionIndex : Int) ≠ (sampleLesson.questions.length : Int) - 1) :=
  ⟨((selectAnswer_reveals_control sampleAtLast sampleLesson 1 rfl (by decide) (by decide)).2.2.2
      rfl rfl).1,
   ((selectAnswer_reveals_control sampleStart sampleLesson 1 rfl (by decide) (by decide)).2.2.2
      rfl rfl).2⟩

/-! ## The learning streak -/

theorem sessionsOn_sorted_pos (z : Zone) (sessions : List SessionRecord) (c : Int) :
    0 < (sessionsOn z
        (sessions.insertionSort (fun a b => a.startTime ≤ b.startTime)) c).length ↔
      ∃ session ∈ sessions, localMidnight z session.startTime = c := by
  have hperm := List.perm_insertionSort (fun a b : SessionRecord => a.startTime ≤ b.startTime)
    sessions
  constructor
  · intro h
    obtain ⟨x, hx⟩ := List.exists_mem_of_length_pos h
    rw [sessionsOn, List.mem_filter] at hx
    exact ⟨x, hperm.mem_iff.mp hx.1, by simpa using hx.2⟩
  · rintro ⟨x, hx, hc⟩
    apply List.length_pos_of_mem (a := x)
    rw [sessionsOn, List.mem_filter]
    exact ⟨hperm.mem_iff.mpr hx, by simpa using hc⟩

theorem sessionsOn_sorted_pos_iff_day (z : Zone) (m : Learning) (c : Int) :
    0 < (sessionsOn z
        ((storedSessions m).insertionSort (fun a b => a.startTime ≤ b.startTime)) c).length ↔
      c ∈ (sessionDays z m).map (fun day => z.toUtc (day * msPerDay)) := by
  rw [sessionsOn_sorted_pos, sessionDays, List.map_map, List.mem_map]
  constructor
  · rintro ⟨x, hx, hc⟩
    exact ⟨x, hx, hc⟩
  · rintro ⟨x, hx, hc⟩
    exact ⟨x, hx, hc⟩

theorem calculateLearningStreak_eq (z : Zone) (now : Int) (m : Learning) :
    calculateLearningStreak z now m =
      if 0 < (sessionsOn z
          ((storedSessions m).insertionSort (fun a b => a.startTime ≤ b.startTime))
          (localMidnight z now)).length then
        streakLoop z ((storedSessions m).insertionSort (fun a b => a.startTime ≤ b.startTime))
          29 (previousDate z (localMidnight z now)) 1
      else 0 := by
  by_cases hempty : (storedSessions m).length = 0
  · have hnil : storedSessions m = [] := List.length_eq_zero.mp hempty
    simp [calculateLearningStreak, hnil, sessionsOn]
  · simp only [calculateLearningStreak, if_neg hempty]

theorem streakLoop_bounds (z : Zone) (sessions : List SessionRecord) :
    ∀ (left : Nat) (c : Int) (k : Nat),
      k ≤ streakLoop z sessions left c k ∧ streakLoop z sessions left c k ≤ k + left := by
  intro left
  induction left with
  | zero => intro c k; simp [streakLoop]
  | succ n ih =>
    intro c k
    rw [streakLoop]
    split_ifs
    · obtain ⟨h1, h2⟩ := ih (previousDate z c) (k + 1)
      omega
    · omega

/-- The streak never exceeds 30, in every time zone. -/
theorem calculateLearningStreak_le_thirty (z : Zone) (now : Int) (m : Learning) :
    calculateLearningStreak z now m ≤ 30 := by
  rw [calculateLearningStreak_eq]
  split_ifs
  · have := (streakLoop_bounds z
      ((storedSessions m).insertionSort (fun a b => a.startTime ≤ b.startTime)) 29
      (previousDate z (localMidnight z now)) 1).2
    omega
  · omega

theorem localMidnight_eq_iff (z : Zone) (hzone : KeepsMidnight z) (t day : Int) :
    localMidnight z t = z.toUtc (day * msPerDay) ↔ localDay z t = day := by
  constructor
  · intro h
    have h1 := congrArg (localDay z) h
    rw [localMidnight, hzone, hzone] at h1
    exact h1
  · intro h
    rw [localMidnight, h]

theorem sessionsOn_sorted_daysAgo (z : Zone) (hzone : KeepsMidnight z) (now : Int)
    (m : Learning) (d : Nat) :
    0 < (sessionsOn z
        ((storedSessions m).insertionSort (fun a b => a.startTime ≤ b.startTime))
        (z.toUtc ((localDay z now - (d : Int)) * msPerDay))).length ↔
      hasSessionDaysAgo z now m d := by
  rw [sessionsOn_sorted_pos, hasSessionDaysAgo, sessionDays, List.mem_map]
  constructor
  · rintro ⟨x, hx, hc⟩
    exact ⟨x, hx, (localMidnight_eq_iff z hzone _ _).mp hc⟩
  · rintro ⟨x, hx, hc⟩
    exact ⟨x, hx, (localMidnight_eq_iff z hzone _ _).mpr hc⟩

theorem keepsMidnight_fixedZone (offset : Int) : KeepsMidnight (fixedZone offset) := by
  intro day
  simp only [localDay, localTime, fixedZone, msPerDay]
  omega

theorem midnightExists_fixedZone (offset day : Int) : MidnightExists (fixedZone offset) day := by
  simp only [MidnightExists, localTime, fixedZone]
  omega

theorem keepsMidnight_oneChangeZone (change before after : Int)
    (hjump : after - before < msPerDay) : KeepsMidnight (oneChangeZone change before after) := by
  intro day
  simp only [msPerDay] at hjump
  simp only [localDay, localTime, oneChangeZone, msPerDay]
  rcases le_total before after with hle | hle
  · rw [max_eq_right hle]
    split_ifs <;> omega
  · rw [max_eq_left hle]
    split_ifs <;> omega

theorem keepsMidnight_cairo : KeepsMidnight cairo :=
  keepsMidnight_oneChangeZone _ _ _ (by decide)

theorem keepsMidnight_newYork : KeepsMidnight newYork :=
  keepsMidnight_oneChangeZone _ _ _ (by decide)

theorem keepsDay_of_keepsMidnight (z : Zone) (hzone : KeepsMidnight z) : KeepsDay z := by
  intro t
  rw [localMidnight, hzone]

theorem sessionsOn_sorted_today (z : Zone) (hzone : KeepsDay z) (now : Int) (m : Learning) :
    0 < (sessionsOn z
        ((storedSessions m).insertionSort (fun a b => a.startTime ≤ b.startTime))
        (localMidnight z now)).length ↔
      hasSessionDaysAgo z now m 0 := by
  rw [sessionsOn_sorted_pos, hasSessionDaysAgo, sessionDays, List.mem_map]
  simp only [Nat.cast_zero, sub_zero]
  constructor
  · rintro ⟨x, hx, hc⟩
    refine ⟨x, hx, ?_⟩
    have h1 := congrArg (localDay z) hc
    rwa [hzone, hzone] at h1
  · rintro ⟨x, hx, hc⟩
    exact ⟨x, hx, by rw [localMidnight, localMidnight, hc]⟩

/-- C14: `calculateLearningStreak` is 0 exactly when no stored session falls
on today's local calendar date, in every time zone in which zeroing the time
of day does not leave the calendar day. It is 0 for the empty history and for
every history without a session today, whatever lies on earlier days, and at
least 1 for every history with a session today. -/
theorem calculateLearningStreak_zero_iff (z : Zone) (hzone : KeepsDay z) (now : Int)
    (m : Learning) :
    (calculateLearningStreak z now m = 0 ↔ ¬ hasSessionDaysAgo z now m 0) ∧
    (storedSessions m = [] → calculateLearningStreak z now m = 0) ∧
    (hasSessionDaysAgo z now m 0 → 1 ≤ calculateLearningStreak z now m) := by
  have htoday := sessionsOn_sorted_today z hzone now m
  have hiff : calculateLearningStreak z now m = 0 ↔ ¬ hasSessionDaysAgo z now m 0 := by
    rw [calculateLearningStreak_eq, ← htoday]
    split_ifs with hp
    · have := (streakLoop_bounds z
        ((storedSessions m).insertionSort (fun a b => a.startTime ≤ b.startTime)) 29
        (previousDate z (localMidnight z now)) 1).1
      constructor
      · intro h0; omega
      · intro hno; exact absurd hp hno
    · simp [hp]
  refine ⟨hiff, ?_, ?_⟩
  · intro hnil
    apply hiff.mpr
    simp [hasSessionDaysAgo, sessionDays, hnil]
  · intro hhas
    by_contra hlt
    exact (hiff.mp (by omega)) hhas

theorem calculateLearningStreak_zero_iff_witness :
    calculateLearningStreak newYork newYorkNoon newYorkYesterday = 0 ∧
    calculateLearningStreak cairo cairoNoon26 (historyAt []) = 0 ∧
    1 ≤ calculateLearningStreak cairo cairoNoon26 cairoLateAndEarly :=
  ⟨(calculateLearningStreak_zero_iff newYork (keepsDay_of_keepsMidnight _ keepsMidnight_newYork)
      newYorkNoon newYorkYesterday).1.mpr (by unfold hasSessionDaysAgo; decide),
   (calculateLearningStreak_zero_iff cairo (keepsDay_of_keepsMidnight _ keepsMidnight_cairo)
      cairoNoon26 (historyAt [])).2.1 rfl,
   (calculateLearningStreak_zero_iff cairo (keepsDay_of_keepsMidnight _ keepsMidnight_cairo)
      cairoNoon26 cairoLateAndEarly).2.2 (by unfold hasSessionDaysAgo; decide)⟩

theorem streakLoop_congr (z : Zone) (first second : List SessionRecord)
    (h : ∀ c, 0 < (sessionsOn z first c).length ↔ 0 < (sessionsOn z second c).length) :
    ∀ (left : Nat) (c : Int) (k : Nat),
      streakLoop z first left c k = streakLoop z second left c k := by
  intro left
  induction left with
  | zero => intro c k; simp [streakLoop]
  | succ n ih =>
    intro c k
    rw [streakLoop, streakLoop]
    by_cases hp : 0 < (sessionsOn z first c).length
    · rw [if_pos hp, if_pos ((h c).mp hp), ih]
    · rw [if_neg hp, if_neg (fun hq => hp ((h c).mpr hq))]

/-- The streak depends only on the set of local calendar days of the stored
start times and on today's calendar day, in every time zone: two histories
with the same set of session days, read at two times of the same day, give the
same streak, whatever the times of day, the order of the records, repeated
days, lessons, worlds and durations. -/
theorem calculateLearningStreak_by_calendar_day (z : Zone) (now1 now2 : Int)
    (m1 m2 : Learning)
    (htoday : localDay z now1 = localDay z now2)
    (hdays : ∀ day, day ∈ sessionDays z m1 ↔ day ∈ sessionDays z m2) :
    calculateLearningStreak z now1 m1 = calculateLearningStreak z now2 m2 := by
  have hmid : localMidnight z now1 = localMidnight z now2 := by
    rw [localMidnight, localMidnight, htoday]
  have hpos : ∀ c,
      0 < (sessionsOn z
        ((storedSessions m1).insertionSort (fun a b => a.startTime ≤ b.startTime)) c).length ↔
      0 < (sessionsOn z
        ((storedSessions m2).insertionSort (fun a b => a.startTime ≤ b.startTime)) c).length := by
    intro c
    rw [sessionsOn_sorted_pos_iff_day, sessionsOn_sorted_pos_iff_day, List.mem_map, List.mem_map]
    constructor
    · rintro ⟨day, hday, hc⟩
      exact ⟨day, (hdays day).mp hday, hc⟩
    · rintro ⟨day, hday, hc⟩
      exact ⟨day, (hdays day).mpr hday, hc⟩
  rw [calculateLearningStreak_eq, calculateLearningStreak_eq, hmid,
    streakLoop_congr z _ _ hpos]
  by_cases hp : 0 < (sessionsOn z
      ((storedSessions m1).insertionSort (fun a b => a.startTime ≤ b.startTime))
      (localMidnight z now2)).length
  · rw [if_pos hp, if_pos ((hpos _).mp hp)]
  · rw [if_neg hp, if_neg (fun hq => hp ((hpos _).mpr hq))]

theorem streakLoop_spec (z : Zone) (sessions : List SessionRecord) (date : Nat → Int) :
    ∀ (left k : Nat) (c : Int), c = date k →
      (∀ j, k ≤ j → j + 1 < k + left → previousDate z (date j) = date (j + 1)) →
      k ≤ streakLoop z sessions left c k ∧
      streakLoop z sessions left c k ≤ k + left ∧
      (∀ d, k ≤ d → d < streakLoop z sessions left c k →
        0 < (sessionsOn z sessions (date d)).length) ∧
      (streakLoop z sessions left c k < k + left →
        ¬ 0 < (sessionsOn z sessions (date (streakLoop z sessions left c k))).length) := by
  intro left
  induction left with
  | zero =>
    intro k c _ _
    simp only [streakLoop]
    exact ⟨le_refl k, le_refl k, fun d h1 h2 => absurd h2 (by omega), fun h => absurd h (by omega)⟩
  | succ n ih =>
    intro k c hc hstep
    subst hc
    by_cases hp : 0 < (sessionsOn z sessions (date k)).length
    · have hunfold : streakLoop z sessions (n + 1) (date k) k =
          streakLoop z sessions n (previousDate z (date k)) (k + 1) := by
        rw [streakLoop, if_pos hp]
      rw [hunfold]
      cases n with
      | zero =>
        simp only [streakLoop]
        refine ⟨by omega, by omega, ?_, fun h => absurd h (by omega)⟩
        intro d hkd hd
        have hdk : d = k := by omega
        subst hdk
        exact hp
      | succ n2 =>
        have hnext : previousDate z (date k) = date (k + 1) := hstep k (le_refl k) (by omega)
        obtain ⟨h1, h2, h3, h4⟩ := ih (k + 1) (previousDate z (date k)) hnext
          (fun j hj hlt => hstep j (by omega) (by omega))
        refine ⟨by omega, by omega, ?_, ?_⟩
        · intro d hkd hd
          rcases Nat.eq_or_lt_of_le hkd with heq | hlt
          · subst heq; exact hp
          · exact h3 d hlt hd
        · intro hlt
          exact h4 (by omega)
    · have hunfold : streakLoop z sessions (n + 1) (date k) k = k := by
        rw [streakLoop, if_neg hp]
      rw [hunfold]
      exact ⟨le_refl k, by omega, fun d h1 h2 => absurd h2 (by omega), fun _ => hp⟩

theorem calculateLearningStreak_spec (z : Zone) (hzone : KeepsMidnight z) (now : Int)
    (m : Learning)
    (hexists : ∀ d : Nat, d < 29 → MidnightExists z (localDay z now - (d : Int))) :
    calculateLearningStreak z now m ≤ 30 ∧
    (∀ d, d < calculateLearningStreak z now m → hasSessionDaysAgo z now m d) ∧
    (calculateLearningStreak z now m < 30 →
      ¬ hasSessionDaysAgo z now m (calculateLearningStreak z now m)) := by
  have hstep : ∀ j : Nat, j < 29 →
      previousDate z (z.toUtc ((localDay z now - (j : Int)) * msPerDay)) =
        z.toUtc ((localDay z now - ((j + 1 : Nat) : Int)) * msPerDay) := by
    intro j hj
    have h := hexists j hj
    rw [MidnightExists] at h
    rw [previousDate, h]
    congr 1
    push_cast
    ring
  have htoday := sessionsOn_sorted_daysAgo z hzone now m 0
  simp only [Nat.cast_zero, sub_zero] at htoday
  have hle := calculateLearningStreak_le_thirty z now m
  rw [calculateLearningStreak_eq] at hle ⊢
  change (if 0 < (sessionsOn z _ (localMidnight z now)).length then _ else 0) ≤ 30 at hle
  by_cases hp : 0 < (sessionsOn z
      ((storedSessions m).insertionSort (fun a b => a.startTime ≤ b.startTime))
      (localMidnight z now)).length
  · rw [if_pos hp] at hle ⊢
    have h0 := hstep 0 (by omega)
    simp only [Nat.cast_zero, sub_zero] at h0
    obtain ⟨h1, h2, h3, h4⟩ := streakLoop_spec z
      ((storedSessions m).insertionSort (fun a b => a.startTime ≤ b.startTime))
      (fun d => z.toUtc ((localDay z now - (d : Int)) * msPerDay)) 29 1
      (previousDate z (localMidnight z now)) h0
      (fun j hj hlt => hstep j (by omega))
    refine ⟨hle, ?_, ?_⟩
    · intro d hd
      rcases Nat.eq_zero_or_pos d with hd0 | hpos
      · subst hd0; exact htoday.mp hp
      · exact (sessionsOn_sorted_daysAgo z hzone now m d).mp (h3 d hpos hd)
    · intro hlt hhas
      exact h4 (by omega) ((sessionsOn_sorted_daysAgo z hzone now m _).mpr hhas)
  · rw [if_neg hp]
    exact ⟨by omega, fun d hd => absurd hd (by omega), fun _ h => hp (htoday.mpr h)⟩

/-- When no local midnight among today and the 28 days before was skipped by
a clock change, the streak is the largest `k`, at most 30, such that each of
the days today, one day ago, ..., `k - 1` days ago has a stored session. -/
theorem calculateLearningStreak_largest (z : Zone) (hzone : KeepsMidnight z) (now : Int)
    (m : Learning)
    (hexists : ∀ d : Nat, d < 29 → MidnightExists z (localDay z now - (d : Int))) :
    calculateLearningStreak z now m ≤ 30 ∧
    (∀ d, d < calculateLearningStreak z now m → hasSessionDaysAgo z now m d) ∧
    (∀ k, k ≤ 30 → (∀ d, d < k → hasSessionDaysAgo z now m d) →
      k ≤ calculateLearningStreak z now m) := by
  obtain ⟨h1, h2, h3⟩ := calculateLearningStreak_spec z hzone now m hexists
  refine ⟨h1, h2, ?_⟩
  intro k hk hall
  by_contra hlt
  exact h3 (by omega) (hall _ (by omega))

/-- When no local midnight among today and the 28 days before was skipped by
a clock change, a history with a session on each of the 30 most recent
calendar days gives exactly 30. -/
theorem calculateLearningStreak_capped (z : Zone) (hzone : KeepsMidnight z) (now : Int)
    (m : Learning)
    (hexists : ∀ d : Nat, d < 29 → MidnightExists z (localDay z now - (d : Int)))
    (hall : ∀ d, d < 30 → hasSessionDaysAgo z now m d) :
    calculateLearningStreak z now m = 30 := by
  obtain ⟨h1, _, h3⟩ := calculateLearningStreak_spec z hzone now m hexists
  by_contra hne
  exact h3 (by omega) (hall _ (by omega))

theorem hasSessionDaysAgo_historyDaysAgo (offset now : Int) (daysAgo : List Nat) (d : Nat)
    (hd : d ∈ daysAgo) :
    hasSessionDaysAgo (fixedZone offset) now (historyDaysAgo now daysAgo) d := by
  simp only [hasSessionDaysAgo, sessionDays, storedSessions, historyDaysAgo, historyAt,
    Option.getD_some, List.map_map, List.mem_map]
  refine ⟨d, hd, ?_⟩
  simp only [Function.comp, sampleRecord, localDay, localTime, fixedZone, msPerDay]
  omega

theorem midnightExists_newYork (day : Int) : MidnightExists newYork day := by
  simp only [MidnightExists, localTime, newYork, oneChangeZone, msPerDay]
  rw [max_eq_right (by decide)]
  split_ifs <;> omega

theorem calculateLearningStreak_largest_witness :
    calculateLearningStreak (fixedZone 0) sampleNow (historyDaysAgo sampleNow [0, 1, 2, 4]) = 3 ∧
    3 ≤ calculateLearningStreak (fixedZone 0) sampleNow (historyDaysAgo sampleNow [0, 1, 2, 4]) ∧
    calculateLearningStreak newYork newYorkNoon11 newYorkThreeDays = 3 ∧
    3 ≤ calculateLearningStreak newYork newYorkNoon11 newYorkThreeDays :=
  ⟨by decide,
   (calculateLearningStreak_largest (fixedZone 0) (keepsMidnight_fixedZone 0) sampleNow
      (historyDaysAgo sampleNow [0, 1, 2, 4]) (fun d _ => midnightExists_fixedZone 0 _)).2.2 3
      (by decide) (fun d hd =>
        hasSessionDaysAgo_historyDaysAgo 0 sampleNow _ d (by
          have : d = 0 ∨ d = 1 ∨ d = 2 := by omega
          rcases this with h | h | h <;> simp [h])),
   by decide,
   (calculateLearningStreak_largest newYork keepsMidnight_newYork newYorkNoon11
      newYorkThreeDays (fun d _ => midnightExists_newYork _)).2.2 3 (by decide) (fun d hd => by
        have : d = 0 ∨ d = 1 ∨ d = 2 := by omega
        rcases this with h | h | h <;> subst h <;> unfold hasSessionDaysAgo <;> decide)⟩

theorem calculateLearningStreak_capped_witness :
    calculateLearningStreak (fixedZone 0) sampleNow (historyDaysAgo sampleNow (List.range 40)) =
      30 :=
  calculateLearningStreak_capped (fixedZone 0) (keepsMidnight_fixedZone 0) sampleNow
    (historyDaysAgo sampleNow (List.range 40)) (fun d _ => midnightExists_fixedZone 0 _)
    (fun d hd => hasSessionDaysAgo_historyDaysAgo 0 sampleNow _ d (List.mem_range.mpr (by omega)))

theorem calculateLearningStreak_by_calendar_day_witness :
    calculateLearningStreak (fixedZone 0) sampleNow lateAndEarly =
      calculateLearningStreak (fixedZone 0) (sampleNow + 3600000) sameDaysShuffled ∧
    calculateLearningStreak (fixedZone 0) sampleNow lateAndEarly = 2 :=
  ⟨calculateLearningStreak_by_calendar_day (fixedZone 0) sampleNow (sampleNow + 3600000)
      lateAndEarly sameDaysShuffled (by decide) (by
        intro day
        have h1 : sessionDays (fixedZone 0) lateAndEarly = [19999, 20000] := by decide
        have h2 : sessionDays (fixedZone 0) sameDaysShuffled = [20000, 20000, 19999] := by decide
        rw [h1, h2]
        simp
        tauto),
   by decide⟩

/-- C13, at a failing input: in Cairo at noon of 28 April 2024, with a session
at nine in the morning on each of 25, 26, 27 and 28 April, the four most
recent calendar days all have a session, yet the streak is 3. The midnight of
26 April was skipped, the scan reaches that day at 01:00 and keeps that time
of day when it steps back to 25 April. -/
theorem streak_stops_at_skipped_midnight :
    localDay cairo cairoNoon28 = 19841 ∧
    sessionDays cairo cairoFourDays = [19838, 19839, 19840, 19841] ∧
    localMidnight cairo 1714111200000 = 1714082400000 ∧
    previousDate cairo 1714082400000 = 1713999600000 ∧
    localMidnight cairo 1714028400000 = 1713996000000 ∧
    calculateLearningStreak cairo cairoNoon28 cairoFourDays = 3 := by
  decide

/-- C15, at a failing input: in Cairo at noon of 10 May 2024, with a session
on each of the forty most recent calendar days, the streak is 15, not 30: the
scan stops behind 26 April, the day whose midnight was skipped. -/
theorem streak_below_cap_across_skipped_midnight :
    localDay cairo cairoNoonMay10 = 19853 ∧
    sessionDays cairo cairoFortyDays =
      (List.range 40).map (fun (d : Nat) => 19853 - (d : Int)) ∧
    calculateLearningStreak cairo cairoNoonMay10 cairoFortyDays = 15 := by
  decide

/-- C16, at a failing input: in Cairo at noon of 26 April 2024, a session at
23:30 the day before and one at 01:30 of the day, an hour apart, fall on two
consecutive calendar days, today included, yet the streak is 1. -/
theorem late_and_early_count_one_on_gap_day :
    localDay cairo cairoNoon26 = 19839 ∧
    sessionDays cairo cairoLateAndEarly = [19838, 19839] ∧
    calculateLearningStreak cairo cairoNoon26 cairoLateAndEarly = 1 := by
  decide

/-! ## Recording sessions -/

theorem storedSessions_storeSessionData (session : SessionRecord) (m : Learning) :
    storedSessions (storeSessionData session m) = storedSessions m ++ [session] := by
  simp [storeSessionData, storedSessions]

theorem endLearningSession_of_none (now : Int) (m : Learning)
    (h : m.storage.currentSession = none) : endLearningSession now m = m := by
  simp [endLearningSession, h]

theorem endLearningSession_of_some (now : Int) (m : Learning) (session : CurrentSession)
    (h : m.storage.currentSession = some session) :
    endLearningSession now m =
      { m with storage :=
          { currentSession := none
            learningSessions := some (storedSessions m ++ [finishedSession session now]) } } := by
  simp [endLearningSession, h, storeSessionData]

theorem storedSessions_startLearningSession (lessonId : String) (now : Int) (m : Learning) :
    storedSessions (startLearningSession lessonId now m) = storedSessions m := by
  simp [startLearningSession, storedSessions]

theorem getLearningAnalyticsRun_eq (m : Learning) :
    getLearningAnalyticsRun m = (getLearningAnalytics m, m) := by
  simp [getLearningAnalyticsRun, getItemSessions]

theorem calculateLearningStreakRun_eq (z : Zone) (now : Int) (m : Learning) :
    calculateLearningStreakRun z now m = (calculateLearningStreak z now m, m) := by
  simp [calculateLearningStreakRun, getItemSessions]

theorem storedSessions_performCall (z : Zone) (m : Learning) (call : LearningCall) :
    ∃ added, storedSessions (performCall z m call) = storedSessions m ++ added ∧
      added.length ≤ 1 := by
  cases call with
  | getLessonContent response =>
    refine ⟨[], ?_, by simp⟩
    cases response <;> simp [performCall, getLessonContent, storedSessions]
  | startLearningSession lessonId now =>
    exact ⟨[], by simp [performCall, storedSessions_startLearningSession], by simp⟩
  | endLearningSession now =>
    cases h : m.storage.currentSession with
    | none => exact ⟨[], by simp [performCall, endLearningSession_of_none now m h], by simp⟩
    | some session =>
      exact ⟨[finishedSession session now],
        by simp [performCall, endLearningSession_of_some now m session h, storedSessions], by simp⟩
  | storeSessionData session =>
    exact ⟨[session], by simp [performCall, storedSessions_storeSessionData], by simp⟩
  | getLearningAnalytics =>
    exact ⟨[], by simp [performCall, getLearningAnalyticsRun_eq], by simp⟩
  | calculateLearningStreak now =>
    exact ⟨[], by simp [performCall, calculateLearningStreakRun_eq], by simp⟩

theorem storedSessions_performCalls (z : Zone) (calls : List LearningCall) (m : Learning) :
    ∃ added, storedSessions (performCalls z m calls) = storedSessions m ++ added ∧
      added.length ≤ calls.length := by
  induction calls generalizing m with
  | nil => exact ⟨[], by simp [performCalls], by simp⟩
  | cons call calls ih =>
    obtain ⟨first, hfirst, hlen⟩ := storedSessions_performCall z m call
    obtain ⟨more, hmore, hmorelen⟩ := ih (performCall z m call)
    refine ⟨first ++ more, ?_, ?_⟩
    · have hrun : performCalls z m (call :: calls) =
          performCalls z (performCall z m call) calls := by
        simp [performCalls]
      rw [hrun, hmore, hfirst, List.append_assoc]
    · simp only [List.length_append, List.length_cons]
      omega

/-- C17: with a current session present, `endLearningSession` appends exactly
one record to the end of the stored history, carrying the current session's
`lessonId`, `world` and `startTime`, the end time `now` and the duration
`now - startTime`, and clears the current-session slot; the manager's lesson
is untouched. -/
theorem endLearningSession_appends (now : Int) (m : Learning) (session : CurrentSession)
    (h : m.storage.currentSession = some session) :
    (endLearningSession now m).storage.learningSessions =
      some (storedSessions m ++
        [⟨session.lessonId, session.startTime, session.world, some now,
          some (now - session.startTime)⟩]) ∧
    (endLearningSession now m).storage.currentSession = none ∧
    (endLearningSession now m).currentLesson = m.currentLesson := by
  rw [endLearningSession_of_some now m session h]
  simp [finishedSession]

theorem endLearningSession_appends_witness :
    (endLearningSession 50 (startLearningSession "L1" 20 sampleLearning)).storage.learningSessions =
      some [⟨"L1", 20, some "Science", some 50, some 30⟩] ∧
    (endLearningSession 50 (startLearningSession "L1" 20 sampleLearning)).storage.currentSession =
      none :=
  have h := endLearningSession_appends 50 (startLearningSession "L1" 20 sampleLearning)
    ⟨"L1", 20, some "Science"⟩ rfl
  ⟨h.1, h.2.1⟩

/-- C18: `endLearningSession` does nothing when no current session exists, so
ending twice records once. For every state, `startLearningSession` followed by
two `endLearningSession` calls appends exactly one record, and the second call
changes nothing: the history and the empty current-session slot stay as the
first call left them. -/
theorem endLearningSession_twice (lessonId : String) (t0 t1 t2 : Int) (m : Learning) :
    storedSessions (endLearningSession t2 (endLearningSession t1
        (startLearningSession lessonId t0 m))) =
      storedSessions m ++
        [⟨lessonId, t0, m.currentLesson.bind (fun lesson => lesson.world), some t1,
          some (t1 - t0)⟩] ∧
    endLearningSession t2 (endLearningSession t1 (startLearningSession lessonId t0 m)) =
      endLearningSession t1 (startLearningSession lessonId t0 m) ∧
    (endLearningSession t1 (startLearningSession lessonId t0 m)).storage.currentSession = none ∧
    (∀ other : Learning, other.storage.currentSession = none →
      endLearningSession t2 other = other) := by
  have hstart : (startLearningSession lessonId t0 m).storage.currentSession =
      some ⟨lessonId, t0, m.currentLesson.bind (fun lesson => lesson.world)⟩ := by
    simp [startLearningSession]
  have hend := endLearningSession_of_some t1 _ _ hstart
  have hslot : (endLearningSession t1 (startLearningSession lessonId t0 m)).storage.currentSession =
      none := by rw [hend]
  have hnoop := endLearningSession_of_none t2 _ hslot
  refine ⟨?_, hnoop, hslot, fun other h => endLearningSession_of_none t2 other h⟩
  rw [hnoop, hend]
  simp [storedSessions, startLearningSession, finishedSession]

theorem endLearningSession_twice_witness :
    storedSessions (endLearningSession 90 (endLearningSession 50
        (startLearningSession "L1" 20 sampleLearning))) =
      [⟨"L1", 20, some "Science", some 50, some 30⟩] ∧
    endLearningSession 90 sampleLearning = sampleLearning :=
  have h := endLearningSession_twice "L1" 20 50 90 sampleLearning
  ⟨h.1, h.2.2.2 sampleLearning rfl⟩

/-- C19: there is one current-session slot, and starting a session replaces
what it holds. For every state, starting `a`, then `b`, then ending appends
exactly one record, the one of `b` with `b`'s start time, and nothing for `a`;
the state after the two starts is the one after starting `b` alone; and
`startLearningSession` never changes the stored history. -/
theorem startLearningSession_replaces (a b : String) (ta tb te : Int) (m : Learning) :
    storedSessions (endLearningSession te (startLearningSession b tb
        (startLearningSession a ta m))) =
      storedSessions m ++
        [⟨b, tb, m.currentLesson.bind (fun lesson => lesson.world), some te, some (te - tb)⟩] ∧
    startLearningSession b tb (startLearningSession a ta m) = startLearningSession b tb m ∧
    (endLearningSession te (startLearningSession b tb
        (startLearningSession a ta m))).storage.currentSession = none ∧
    (startLearningSession a ta m).storage.learningSessions = m.storage.learningSessions := by
  have hsame : startLearningSession b tb (startLearningSession a ta m) =
      startLearningSession b tb m := by
    simp [startLearningSession]
  have hstart : (startLearningSession b tb m).storage.currentSession =
      some ⟨b, tb, m.currentLesson.bind (fun lesson => lesson.world)⟩ := by
    simp [startLearningSession]
  rw [hsame, endLearningSession_of_some te _ _ hstart]
  simp [storedSessions, startLearningSession, finishedSession]

/-- C20: the stored history is append-only. In every state and time zone:
`storeSessionData` extends the stored list by exactly its argument, at the
end; `endLearningSession` with a current session extends it by exactly one
record, the finished session, at the end, and does so through
`storeSessionData`; without a current session it changes nothing;
`startLearningSession` and `getLessonContent` do not write the list;
`getLearningAnalytics` and `calculateLearningStreak` return their value and
leave the whole state as it was; and every sequence of calls keeps the stored
records in place and in order, adding at most one record per call at the
end. -/
theorem learningSessions_append_only (z : Zone) (m : Learning) :
    (∀ session : SessionRecord,
      storedSessions (performCall z m (.storeSessionData session)) =
        storedSessions m ++ [session]) ∧
    (∀ (now : Int) (session : CurrentSession), m.storage.currentSession = some session →
      storedSessions (performCall z m (.endLearningSession now)) =
        storedSessions m ++
          [⟨session.lessonId, session.startTime, session.world, some now,
            some (now - session.startTime)⟩] ∧
      (performCall z m (.endLearningSession now)).storage.learningSessions =
        (storeSessionData
          ⟨session.lessonId, session.startTime, session.world, some now,
            some (now - session.startTime)⟩ m).storage.learningSessions) ∧
    (∀ now : Int, m.storage.currentSession = none →
      performCall z m (.endLearningSession now) = m) ∧
    (∀ (lessonId : String) (now : Int),
      (performCall z m (.startLearningSession lessonId now)).storage.learningSessions =
        m.storage.learningSessions) ∧
    (∀ response : FetchResult TrackedLesson,
      (performCall z m (.getLessonContent response)).storage = m.storage) ∧
    (performCall z m .getLearningAnalytics = m ∧
      (getLearningAnalyticsRun m).1 = getLearningAnalytics m) ∧
    (∀ now : Int, performCall z m (.calculateLearningStreak now) = m ∧
      (calculateLearningStreakRun z now m).1 = calculateLearningStreak z now m) ∧
    (∀ calls : List LearningCall, ∃ added,
      storedSessions (performCalls z m calls) = storedSessions m ++ added ∧
      added.length ≤ calls.length) := by
  refine ⟨fun session => storedSessions_storeSessionData session m, ?_, ?_, ?_, ?_, ?_, ?_,
    fun calls => storedSessions_performCalls z calls m⟩
  · intro now session h
    simp only [performCall]
    rw [endLearningSession_of_some now m session h]
    simp [storedSessions, finishedSession, storeSessionData]
  · intro now h
    exact endLearningSession_of_none now m h
  · intro lessonId now
    simp [performCall, startLearningSession]
  · intro response
    cases response <;> simp [performCall, getLessonContent]
  · simp [performCall, getLearningAnalyticsRun_eq]
  · intro now
    simp [performCall, calculateLearningStreakRun_eq]

theorem learningSessions_append_only_witness :
    storedSessions (performCall cairo (startLearningSession "L1" 20 sampleLearning)
        (.endLearningSession 50)) =
      [⟨"L1", 20, some "Science", some 50, some 30⟩] ∧
    performCall cairo sampleLearning (.endLearningSession 50) = sampleLearning ∧
    performCall cairo cairoFourDays (.calculateLearningStreak cairoNoon28) = cairoFourDays :=
  ⟨((learningSessions_append_only cairo (startLearningSession "L1" 20 sampleLearning)).2.1 50
      ⟨"L1", 20, some "Science"⟩ rfl).1,
   (learningSessions_append_only cairo sampleLearning).2.2.1 50 rfl,
   ((learningSessions_append_only cairo cairoFourDays).2.2.2.2.2.2.1 cairoNoon28).1⟩

/-! ## The analytics of the stored sessions -/

theorem lookup_bumpEntry_self (key : String) (d : Int) (breakdown : List (String × WorldStats)) :
    (bumpEntry key d breakdown).lookup key =
      some ⟨((breakdown.lookup key).map (fun stats => stats.count)).getD 0 + 1,
        ((breakdown.lookup key).map (fun stats => stats.time)).getD 0 + d⟩ := by
  induction breakdown with
  | nil => simp [bumpEntry, List.lookup]
  | cons entry rest ih =>
    obtain ⟨k, stats⟩ := entry
    by_cases hk : k = key
    · subst hk
      simp [bumpEntry, List.lookup]
    · have hne : (key == k) = false := by simpa using fun h => hk h.symm
      simp [bumpEntry, hk, List.lookup, hne, ih]

theorem lookup_bumpEntry_ne (key other : String) (d : Int)
    (breakdown : List (String × WorldStats)) (hne : other ≠ key) :
    (bumpEntry key d breakdown).lookup other = breakdown.lookup other := by
  induction breakdown with
  | nil =>
    have h : (other == key) = false := by simpa using hne
    simp [bumpEntry, List.lookup, h]
  | cons entry rest ih =>
    obtain ⟨k, stats⟩ := entry
    by_cases hk : k = key
    · subst hk
      have h : (other == k) = false := by simpa using hne
      simp [bumpEntry, List.lookup, h]
    · by_cases ho : other = k
      · subst ho
        simp [bumpEntry, hk, List.lookup]
      · have h : (other == k) = false := by simpa using ho
        simp [bumpEntry, hk, List.lookup, h, ih]

theorem lookup_foldl_addToBreakdown (key : String) (hkey : key ∉ inheritedKeys)
    (sessions : List SessionRecord) :
    ∀ breakdown : List (String × WorldStats),
      (sessions.foldl addToBreakdown breakdown).lookup key =
        extendEntry (breakdown.lookup key)
          (sessions.filter (fun session => worldKey session.world == key)) := by
  induction sessions with
  | nil => intro breakdown; simp [extendEntry]
  | cons session rest ih =>
    intro breakdown
    rw [List.foldl_cons, ih]
    by_cases hw : worldKey session.world = key
    · have hfilter : (session :: rest).filter (fun s => worldKey s.world == key) =
          session :: rest.filter (fun s => worldKey s.world == key) := by
        simp [List.filter_cons, hw]
      have hadd : addToBreakdown breakdown session =
          bumpEntry key (durationOrZero session) breakdown := by
        simp [addToBreakdown, hw, hkey]
      rw [hfilter, hadd, lookup_bumpEntry_self]
      cases hrest : rest.filter (fun s => worldKey s.world == key) with
      | nil => simp [extendEntry]
      | cons r rs =>
        simp only [extendEntry, Option.map_some', Option.getD_some, List.length_cons,
          List.map_cons, List.sum_cons]
        congr 2
        · omega
        · ring
    · have hfilter : (session :: rest).filter (fun s => worldKey s.world == key) =
          rest.filter (fun s => worldKey s.world == key) := by
        simp [List.filter_cons, hw]
      have hadd : (addToBreakdown breakdown session).lookup key = breakdown.lookup key := by
        unfold addToBreakdown
        split_ifs
        · rfl
        · exact lookup_bumpEntry_ne _ _ _ _ (fun h => hw h.symm)
      rw [hfilter, hadd]

theorem lookup_foldl_addToBreakdown_inherited (key : String) (hkey : key ∈ inheritedKeys)
    (sessions : List SessionRecord) :
    ∀ breakdown : List (String × WorldStats),
      (sessions.foldl addToBreakdown breakdown).lookup key = breakdown.lookup key := by
  induction sessions with
  | nil => intro breakdown; rfl
  | cons session rest ih =>
    intro breakdown
    rw [List.foldl_cons, ih]
    unfold addToBreakdown
    split_ifs with hin
    · rfl
    · exact lookup_bumpEntry_ne _ _ _ _ (fun h => hin (h ▸ hkey))

theorem breakdownCount_bumpEntry (key : String) (d : Int)
    (breakdown : List (String × WorldStats)) :
    breakdownCount (bumpEntry key d breakdown) = breakdownCount breakdown + 1 ∧
    breakdownTime (bumpEntry key d breakdown) = breakdownTime breakdown + d := by
  induction breakdown with
  | nil => simp [bumpEntry, breakdownCount, breakdownTime]
  | cons entry rest ih =>
    obtain ⟨k, stats⟩ := entry
    simp only [breakdownCount, breakdownTime] at ih ⊢
    by_cases hk : k = key
    · simp only [bumpEntry, hk, if_true, List.map_cons, List.sum_cons]
      constructor
      · omega
      · ring
    · simp only [bumpEntry, hk, if_false, List.map_cons, List.sum_cons, ih.1, ih.2]
      constructor
      · omega
      · ring

theorem breakdownCount_foldl_addToBreakdown (sessions : List SessionRecord)
    (hkeys : ∀ session ∈ sessions, worldKey session.world ∉ inheritedKeys) :
    ∀ breakdown : List (String × WorldStats),
      breakdownCount (sessions.foldl addToBreakdown breakdown) =
        breakdownCount breakdown + sessions.length ∧
      breakdownTime (sessions.foldl addToBreakdown breakdown) =
        breakdownTime breakdown + (sessions.map durationOrZero).sum := by
  induction sessions with
  | nil => intro breakdown; simp
  | cons session rest ih =>
    intro breakdown
    have hs : worldKey session.world ∉ inheritedKeys := hkeys session (List.mem_cons_self _ _)
    obtain ⟨h1, h2⟩ := ih (fun s hmem => hkeys s (List.mem_cons_of_mem _ hmem))
      (addToBreakdown breakdown session)
    obtain ⟨b1, b2⟩ := breakdownCount_bumpEntry (worldKey session.world)
      (durationOrZero session) breakdown
    have hadd : addToBreakdown breakdown session =
        bumpEntry (worldKey session.world) (durationOrZero session) breakdown := by
      simp [addToBreakdown, hs]
    rw [List.foldl_cons, h1, h2, hadd, b1, b2]
    simp only [List.length_cons, List.map_cons, List.sum_cons]
    constructor
    · omega
    · ring

/-- The totals of `getLearningAnalytics`: the number of stored sessions, the
sum of their durations with a missing one counted as 0, their quotient (0 for
the empty history), and the breakdown as the fold over the sessions. -/
theorem getLearningAnalytics_totals (m : Learning) :
    (getLearningAnalytics m).totalSessions = (storedSessions m).length ∧
    (getLearningAnalytics m).totalTime = ((storedSessions m).map durationOrZero).sum ∧
    (getLearningAnalytics m).averageSessionTime =
      (if (storedSessions m).length = 0 then 0
       else ((((storedSessions m).map durationOrZero).sum : Int) : Rat) /
         (((storedSessions m).length : Nat) : Rat)) ∧
    (getLearningAnalytics m).worldBreakdown = (storedSessions m).foldl addToBreakdown [] := by
  unfold getLearningAnalytics
  by_cases h : (storedSessions m).length > 0
  · have h0 : (storedSessions m).length ≠ 0 := by omega
    simp [h, h0]
  · have h0 : (storedSessions m).length = 0 := by omega
    have hnil : storedSessions m = [] := List.length_eq_zero.mp h0
    simp [hnil]

/-- For a key that `{}` does not inherit, the entry of `worldBreakdown` under
it holds the number and the summed durations of the stored sessions of that
key, and is absent when there is no such session. -/
theorem breakdownEntry_getLearningAnalytics (m : Learning) (key : String)
    (hkey : key ∉ inheritedKeys) :
    breakdownEntry (getLearningAnalytics m).worldBreakdown key =
      (if sessionsOfWorld m key = [] then none
       else some ⟨(sessionsOfWorld m key).length,
         ((sessionsOfWorld m key).map durationOrZero).sum⟩) := by
  rw [(getLearningAnalytics_totals m).2.2.2, breakdownEntry,
    lookup_foldl_addToBreakdown key hkey, sessionsOfWorld]
  cases hf : (storedSessions m).filter (fun session => worldKey session.world == key) with
  | nil => simp [extendEntry, List.lookup]
  | cons s ss => simp [extendEntry, List.lookup]

/-- When no stored session has a world whose key `{}` inherits, the counts of
`worldBreakdown` sum to `totalSessions` and its times to `totalTime`. -/
theorem breakdown_partitions_totals (m : Learning)
    (hkeys : ∀ session ∈ storedSessions m, worldKey session.world ∉ inheritedKeys) :
    breakdownCount (getLearningAnalytics m).worldBreakdown = (getLearningAnalytics m).totalSessions ∧
    breakdownTime (getLearningAnalytics m).worldBreakdown = (getLearningAnalytics m).totalTime := by
  obtain ⟨t1, t2, _, t4⟩ := getLearningAnalytics_totals m
  obtain ⟨h1, h2⟩ := breakdownCount_foldl_addToBreakdown (storedSessions m) hkeys []
  rw [t1, t2, t4, h1, h2]
  simp [breakdownCount, breakdownTime]

/-- C21, at a failing input: in a history with one Science session and one
session of a world named `constructor`, the totals count both sessions, but
`worldBreakdown` has the Science entry only; the world `constructor`, with one
record of duration 7, has no entry of its own. -/
theorem worldBreakdown_misses_constructor :
    (getLearningAnalytics historyWithConstructor).totalSessions = 2 ∧
    (getLearningAnalytics historyWithConstructor).totalTime = 12 ∧
    (sessionsOfWorld historyWithConstructor "constructor").length = 1 ∧
    ((sessionsOfWorld historyWithConstructor "constructor").map durationOrZero).sum = 7 ∧
    (getLearningAnalytics historyWithConstructor).worldBreakdown = [("Science", ⟨1, 5⟩)] ∧
    breakdownEntry (getLearningAnalytics historyWithConstructor).worldBreakdown "constructor" =
      none := by
  decide

/-- C24, at a failing input: for a history with a single session, of a world
named `toString`, the totals are one session and four milliseconds, while the
breakdown is empty, so its counts and times sum to zero. -/
theorem breakdown_sum_misses_toString :
    (getLearningAnalytics historyWithToString).totalSessions = 1 ∧
    (getLearningAnalytics historyWithToString).totalTime = 4 ∧
    (getLearningAnalytics historyWithToString).worldBreakdown = [] ∧
    breakdownCount (getLearningAnalytics historyWithToString).worldBreakdown = 0 ∧
    breakdownTime (getLearningAnalytics historyWithToString).worldBreakdown = 0 := by
  decide

/-! ## The review of a graded lesson -/

theorem showLessonResults_quiz (results : LessonResults) (s : App) :
    (showLessonResults results s).1.dom.quiz = .resultsCard results := by
  unfold showLessonResults
  cases hu : s.currentUser <;> simp [hu, showMessage, updateUserInfo]

/-- C22: graded results are read 0-based and shown 1-based. After
`showLessonResults` the quiz container holds one review block per element of
the server's `results`, in the same order; the block of the element at 0-based
position `i` is headed `Question i + 1`, shows `Your answer` as `userAnswer + 1`
and `Correct answer` as `correctAnswer + 1`, and carries its explanation. -/
theorem showLessonResults_review (results : LessonResults) (s : App) :
    (renderedReview (showLessonResults results s).1.dom.quiz).length = results.results.length ∧
    (∀ (i : Nat) (result : QuestionResult), results.results[i]? = some result →
      (renderedReview (showLessonResults results s).1.dom.quiz)[i]? =
        some
          { cssClass := if result.isCorrect then "correct" else "incorrect"
            heading := "Question " ++ toString (i + 1) ++ ": " ++ result.question
            yourAnswer := toString (result.userAnswer + 1)
            correctAnswer := toString (result.correctAnswer + 1)
            explanation := result.explanation }) := by
  rw [showLessonResults_quiz]
  refine ⟨by simp [renderedReview, questionReview], ?_⟩
  intro i result hi
  simp [renderedReview, questionReview, List.getElem?_mapIdx, hi, reviewEntry]

theorem showLessonResults_review_witness :
    (renderedReview (showLessonResults sampleResults sampleAtLast).1.dom.quiz)[1]? =
      some ⟨"incorrect", "Question 2: q2", "1", "3", "e2"⟩ :=
  (showLessonResults_review sampleResults sampleAtLast).2 1 ⟨"q2", false, 0, 2, "e2"⟩ rfl

/-! ## The recommended world -/

theorem foldl_lowestLevelStep (levels : List (String × Nat)) :
    ∀ (recommended : Option String) (lowest : Nat),
      ((levels.foldl lowestLevelStep (recommended, lowest)) = (recommended, lowest) ∧
        ∀ entry ∈ levels, lowest ≤ entry.2) ∨
      (∃ world low before after,
        levels = before ++ (world, low) :: after ∧
        levels.foldl lowestLevelStep (recommended, lowest) = (some world, low) ∧
        low < lowest ∧
        (∀ entry ∈ before, low < entry.2) ∧
        (∀ entry ∈ after, low ≤ entry.2)) := by
  induction levels with
  | nil => intro recommended lowest; left; simp
  | cons head rest ih =>
    intro recommended lowest
    obtain ⟨w, l⟩ := head
    by_cases hlt : l < lowest
    · have hstep : lowestLevelStep (recommended, lowest) (w, l) = (some w, l) := by
        simp [lowestLevelStep, hlt]
      rw [List.foldl_cons, hstep]
      right
      rcases ih (some w) l with ⟨hsame, hall⟩ | ⟨world, low, before, after, hsplit, hres, hlow, hb, ha⟩
      · exact ⟨w, l, [], rest, rfl, hsame, hlt, by simp, hall⟩
      · refine ⟨world, low, (w, l) :: before, after, by simp [hsplit], hres, by omega, ?_, ha⟩
        intro entry hmem
        rcases List.mem_cons.mp hmem with rfl | hmem
        · exact hlow
        · exact hb entry hmem
    · have hstep : lowestLevelStep (recommended, lowest) (w, l) = (recommended, lowest) := by
        simp [lowestLevelStep, hlt]
      rw [List.foldl_cons, hstep]
      rcases ih recommended lowest with ⟨hsame, hall⟩ | ⟨world, low, before, after, hsplit, hres, hlow, hb, ha⟩
      · left
        refine ⟨hsame, ?_⟩
        intro entry hmem
        rcases List.mem_cons.mp hmem with rfl | hmem
        · simpa using hlt
        · exact hall entry hmem
      · right
        refine ⟨world, low, (w, l) :: before, after, by simp [hsplit], hres, hlow, ?_, ha⟩
        intro entry hmem
        rcases List.mem_cons.mp hmem with rfl | hmem
        · simp only; omega
        · exact hb entry hmem

/-- C23, at a failing input: for a user at level 10 in each of the four
worlds, with an incomplete lesson on offer, the scan selects no world although
Science is the first world of minimal level; no lessons are requested and
`null` is returned. -/
theorem lowestLevelScan_none_at_ten :
    lowestLevelScan [("science", 10), ("math", 10), ("history", 10), ("lifeSkills", 10)] =
      (none, 10) ∧
    (getNextRecommendedLesson
        (.ok [("science", 10), ("math", 10), ("history", 10), ("lifeSkills", 10)])
        (.ok ["science", "math", "history", "lifeSkills"])
        (.ok [⟨"a", "t", "d", 1, 1, false⟩])).requests =
      [⟨"/api/learning/levels", false, none⟩, ⟨"/api/learning/worlds", false, none⟩] ∧
    (getNextRecommendedLesson
        (.ok [("science", 10), ("math", 10), ("history", 10), ("lifeSkills", 10)])
        (.ok ["science", "math", "history", "lifeSkills"])
        (.ok [⟨"a", "t", "d", 1, 1, false⟩])).result = none := by
  decide

/-- For every levels map in which some world has a level below 10, the scan
of `getNextRecommendedLesson` selects the first world in key order whose level
is minimal among all worlds of the map, together with that level; when the
name of that world is not empty, the lessons are requested for that world at
that level, after the requests for the levels and the worlds. -/
theorem lowestLevelScan_first_minimal (levels : List (String × Nat))
    (hbelow : ∃ entry ∈ levels, entry.2 < 10) :
    ∃ world low before after,
      levels = before ++ (world, low) :: after ∧
      lowestLevelScan levels = (some world, low) ∧
      (∀ entry ∈ before, low < entry.2) ∧
      (∀ entry ∈ after, low ≤ entry.2) ∧
      (world ≠ "" → ∀ (worldsResponse : FetchResult (List String))
          (lessonsResponse : FetchResult (List LessonCard)),
        (getNextRecommendedLesson (.ok levels) worldsResponse lessonsResponse).requests =
          [⟨"/api/learning/levels", false, none⟩, ⟨"/api/learning/worlds", false, none⟩,
            lessonsRequest world low]) := by
  rcases foldl_lowestLevelStep levels none 10 with
    ⟨_, hall⟩ | ⟨world, low, before, after, hsplit, hres, _, hb, ha⟩
  · obtain ⟨entry, hmem, hlt⟩ := hbelow
    have := hall entry hmem
    omega
  · refine ⟨world, low, before, after, hsplit, hres, hb, ha, ?_⟩
    intro hname worldsResponse lessonsResponse
    have hscan : lowestLevelScan levels = (some world, low) := hres
    simp only [getNextRecommendedLesson, getUserLevels, hscan, hname, if_false]
    cases lessonsResponse with
    | failed => rfl
    | notOk => rfl
    | ok lessons =>
      simp only
      cases lessons.filter (fun lesson => !lesson.isCompleted) <;> rfl

theorem lowestLevelScan_first_minimal_witness :
    ∃ world low before after,
      [("science", 3), ("math", 2), ("history", 2)] = before ++ (world, low) :: after ∧
      lowestLevelScan [("science", 3), ("math", 2), ("history", 2)] = (some world, low) ∧
      (∀ entry ∈ before, low < entry.2) ∧
      (∀ entry ∈ after, low ≤ entry.2) :=
  have ⟨world, low, before, after, h1, h2, h3, h4, _⟩ :=
    lowestLevelScan_first_minimal [("science", 3), ("math", 2), ("history", 2)]
      ⟨("math", 2), by simp, by decide⟩
  ⟨world, low, before, after, h1, h2, h3, h4⟩

/-! ## The rank insight -/

/-- The reported percentile lies between 0 and 100 for every rank within the
leaderboard. -/
theorem rankPercentile_bounds (totalUsers rank : Nat) (hrank : 1 ≤ rank)
    (hle : rank ≤ totalUsers) :
    0 ≤ rankPercentile totalUsers rank ∧ rankPercentile totalUsers rank ≤ 100 := by
  have hn : (0 : Rat) < (totalUsers : Rat) := by exact_mod_cast (by omega : 0 < totalUsers)
  have hr : (rank : Rat) ≤ (totalUsers : Rat) := by exact_mod_cast hle
  have hr1 : (1 : Rat) ≤ (rank : Rat) := by exact_mod_cast hrank
  have h0 : (0 : Rat) ≤ ((totalUsers : Rat) - (rank : Rat)) / (totalUsers : Rat) * 100 := by
    apply mul_nonneg _ (by norm_num)
    exact div_nonneg (by linarith) (le_of_lt hn)
  have h1 : ((totalUsers : Rat) - (rank : Rat)) / (totalUsers : Rat) * 100 ≤ 100 := by
    have : ((totalUsers : Rat) - (rank : Rat)) / (totalUsers : Rat) ≤ 1 := by
      rw [div_le_one hn]; linarith
    linarith
  unfold rankPercentile mathRound
  constructor
  · exact Int.floor_nonneg.mpr (by linarith)
  · have : ⌊((totalUsers : Rat) - (rank : Rat)) / (totalUsers : Rat) * 100 + 1 / 2⌋ < 101 := by
      rw [Int.floor_lt]
      push_cast
      linarith
    omega

/-- C25, at a failing input: on a global leaderboard of two users the user
ranked second, that is last, is told `You're in the top 0% of learners!`; the
reported percentile is 0 while the user's rank over the number of users is 1,
so the user is not within the top 0 percent. -/
theorem rank_insight_top_zero :
    rankPercentile 2 2 = 0 ∧
    generateInsights sampleLeaderboard (some ⟨"u2", 50⟩) =
      [⟨"rank", "You\x27re in the top 0% of learners!", "🎯"⟩,
       ⟨"achievement", "Amazing! You\x27re in the top 10!", "🏆"⟩] ∧
    ¬ ((2 : Rat) / 2 ≤ ((rankPercentile 2 2 : Int) : Rat) / 100) := by
  have hp : rankPercentile 2 2 = 0 := by
    norm_num [rankPercentile, mathRound]
  refine ⟨hp, ?_, ?_⟩
  · have hstats : getLeaderboardStats sampleLeaderboard = ⟨2, 70, 90, []⟩ := by
      simp [getLeaderboardStats, sampleLeaderboard]
      norm_num
    have hidx : [(⟨"u1", 90⟩ : LeaderboardUser), ⟨"u2", 50⟩].findIdx?
        (fun entry => entry._id == "u2") = some 1 := by decide
    have hboard : sampleLeaderboard.leaderboardGlobal.bind (fun data => data.leaderboard) =
        some [⟨"u1", 90⟩, ⟨"u2", 50⟩] := rfl
    have hscore : scoreInsights 50 70 = [] := by
      simp [scoreInsights]
      norm_num
    simp only [generateInsights, hstats, hboard, Option.some_bind, hidx, hscore, rankInsights, hp]
    decide
  · rw [hp]
    norm_num

end LearningWorld
